import Mathlib

set_option maxRecDepth 8000

/-!
Shallow embedding of the ChampSim value-prediction register allocator
(`src/register_allocator.cc`, `inc/register_allocator.h`) and of the packed
trace-record layout declared in `tracer/pin/trace_reader.cpp`.

Machine integers are modelled as `Int`/`Nat`: `PHYSICAL_REGISTER_ID` (a signed
16-bit integer in the sources) becomes `Int` with `-1` as the `UNMAPPED`
sentinel; `uint16_t` / `uint64_t` fields become `Nat` (no arithmetic is ever
performed on them, so no overflow reduction is needed).  The two 256-entry
`std::array`s become lists of length 256, the `std::vector` physical register
file becomes a list, the `std::queue` free list becomes a list whose head is
the queue front and whose tail end receives pushes, and the `std::unordered_map`
rename history becomes an association list with unique keys.
-/

/-- One slot of the physical register file (`struct physical_register`). -/
structure physical_register where
  arch_reg_index : Nat
  producing_instruction_id : Nat
  valid : Bool
  busy : Bool
  deriving DecidableEq, Repr

/-- The reset value `{255, 0, false, false}` written by `free_register` and by
`undo_rename` for a slot returned to the free list. -/
def freeSlot : physical_register := ⟨255, 0, false, false⟩

/-- `RegisterAllocator::RenameCheckpoint` from `register_allocator.h`. -/
structure RenameCheckpoint where
  arch_reg : Int
  old_phys_reg : Int
  new_phys_reg : Int
  instr_id : Nat
  deriving DecidableEq, Repr

/-- The `std::unordered_map<uint64_t, std::vector<RenameCheckpoint>>` rename
history, as an association list. -/
abbrev RenameHistory := List (Nat × List RenameCheckpoint)

/-- `rename_history.find(instr_id)`: first entry with the given key. -/
def historyFind : RenameHistory → Nat → Option (List RenameCheckpoint)
  | [], _ => none
  | (k, v) :: rest, i => if k = i then some v else historyFind rest i

/-- `rename_history[instr_id].push_back(cp)`: append to the entry with the
given key, default-constructing an empty entry when the key is absent. -/
def historyAppend : RenameHistory → Nat → RenameCheckpoint → RenameHistory
  | [], i, cp => [(i, [cp])]
  | (k, v) :: rest, i, cp =>
      if k = i then (k, v ++ [cp]) :: rest else (k, v) :: historyAppend rest i cp

/-- `rename_history.erase(it)`: remove the first entry with the given key. -/
def historyErase : RenameHistory → Nat → RenameHistory
  | [], _ => []
  | (k, v) :: rest, i => if k = i then rest else (k, v) :: historyErase rest i

/-- All `new_phys_reg` fields recorded anywhere in the rename history
(used by `validate_state` in the source to check invariant 5). -/
def allNews : RenameHistory → List Int
  | [] => []
  | e :: rest => e.2.map (fun cp => cp.new_phys_reg) ++ allNews rest

/-- The full allocator state (`class RegisterAllocator`). -/
structure RegisterAllocator where
  frontend_RAT : List Int
  backend_RAT : List Int
  free_registers : List Int
  physical_register_file : List physical_register
  rename_history : RenameHistory
  deriving DecidableEq, Repr

/-- Modelled from the spec: `PHYSICAL_REGISTER_ID` is declared in
`instruction.h`, which is not among the sources; the spec's design notes state
it is a signed 16-bit integer, so the constructor's
`std::numeric_limits::max()` bound on the id type is `32767`. -/
def PHYS_REG_ID_MAX : Nat := 32767

/-- The constructor `RegisterAllocator::RegisterAllocator(num_physical_registers)`:
free list `0 .. n-1` in FIFO order, all slots `{0, 0, false, false}`, both RATs
(256 entries each) filled with `-1`. -/
def RegisterAllocator.init (num_physical_registers : Nat) : RegisterAllocator where
  frontend_RAT := List.replicate 256 (-1)
  backend_RAT := List.replicate 256 (-1)
  free_registers := (List.range num_physical_registers).map Int.ofNat
  physical_register_file := List.replicate num_physical_registers ⟨0, 0, false, false⟩
  rename_history := []

/-- Failure abstraction for the free-list-empty case: the source asserts
`!free_registers.empty()` (`rename_dest_register`) or would invoke UB
(`rename_src_register`); the spec names this failure `NoFreeRegister`. -/
inductive AllocError where
  | NoFreeRegister
  deriving DecidableEq, Repr

/-- `RegisterAllocator::rename_dest_register`. -/
def rename_dest_register (s : RegisterAllocator) (reg : Int) (producer_id : Nat) :
    Except AllocError (RegisterAllocator × Int) :=
  match s.free_registers with
  | [] => .error .NoFreeRegister
  | phys_reg :: rest =>
      .ok ({ s with
              free_registers := rest
              frontend_RAT := s.frontend_RAT.set reg.toNat phys_reg
              physical_register_file :=
                s.physical_register_file.set phys_reg.toNat
                  ⟨reg.toNat, producer_id, false, true⟩ },
           phys_reg)

/-- `RegisterAllocator::rename_src_register`. -/
def rename_src_register (s : RegisterAllocator) (reg : Int) :
    Except AllocError (RegisterAllocator × Int) :=
  let phys := s.frontend_RAT.getD reg.toNat (-1)
  if phys < 0 then
    match s.free_registers with
    | [] => .error .NoFreeRegister
    | p :: rest =>
        .ok ({ s with
                free_registers := rest
                frontend_RAT := s.frontend_RAT.set reg.toNat p
                backend_RAT := s.backend_RAT.set reg.toNat p
                physical_register_file :=
                  s.physical_register_file.set p.toNat ⟨reg.toNat, 0, true, true⟩ },
             p)
  else
    .ok (s, phys)

/-- `RegisterAllocator::complete_dest_register`: set `valid` on the slot. -/
def complete_dest_register (s : RegisterAllocator) (physreg : Int) : RegisterAllocator :=
  let r := s.physical_register_file.getD physreg.toNat freeSlot
  { s with physical_register_file :=
      s.physical_register_file.set physreg.toNat { r with valid := true } }

/-- `RegisterAllocator::free_register`: reset the slot to `{255,0,false,false}`
and push the register onto the free list. -/
def free_register (s : RegisterAllocator) (physreg : Int) : RegisterAllocator :=
  { s with
    physical_register_file := s.physical_register_file.set physreg.toNat freeSlot
    free_registers := s.free_registers ++ [physreg] }

/-- `RegisterAllocator::retire_dest_register`. -/
def retire_dest_register (s : RegisterAllocator) (physreg : Int) : RegisterAllocator :=
  let arch_reg := (s.physical_register_file.getD physreg.toNat freeSlot).arch_reg_index
  let old_phys_reg := s.backend_RAT.getD arch_reg (-1)
  let s1 := { s with backend_RAT := s.backend_RAT.set arch_reg physreg }
  if old_phys_reg ≠ -1 then free_register s1 old_phys_reg else s1

/-- `RegisterAllocator::count_free_registers`. -/
def count_free_registers (s : RegisterAllocator) : Nat := s.free_registers.length

/-- `RegisterAllocator::get_current_mapping`. -/
def get_current_mapping (s : RegisterAllocator) (arch_reg : Int) : Int :=
  if arch_reg < 0 ∨ 256 ≤ arch_reg then -1
  else s.frontend_RAT.getD arch_reg.toNat (-1)

/-- `RegisterAllocator::record_rename`. -/
def record_rename (s : RegisterAllocator) (instr_id : Nat) (arch_reg : Int)
    (old_phys_reg new_phys_reg : Int) : RegisterAllocator :=
  { s with rename_history :=
      historyAppend s.rename_history instr_id ⟨arch_reg, old_phys_reg, new_phys_reg, instr_id⟩ }

/-- The body of the checkpoint loop of `RegisterAllocator::undo_rename`:
restore the frontend RAT entry, reset the slot when `new_phys_reg` is in
range, and push `new_phys_reg` onto the free list. -/
def undoCheckpoint (s : RegisterAllocator) (cp : RenameCheckpoint) : RegisterAllocator :=
  { s with
    frontend_RAT := s.frontend_RAT.set cp.arch_reg.toNat cp.old_phys_reg
    physical_register_file :=
      if 0 ≤ cp.new_phys_reg ∧ cp.new_phys_reg.toNat < s.physical_register_file.length then
        s.physical_register_file.set cp.new_phys_reg.toNat freeSlot
      else s.physical_register_file
    free_registers := s.free_registers ++ [cp.new_phys_reg] }

/-- `RegisterAllocator::undo_rename`: process the instruction's checkpoints in
reverse (LIFO) order, then erase the history entry; no-op when absent. -/
def undo_rename (s : RegisterAllocator) (instr_id : Nat) : RegisterAllocator :=
  match historyFind s.rename_history instr_id with
  | none => s
  | some cps =>
      let s1 := cps.reverse.foldl undoCheckpoint s
      { s1 with rename_history := historyErase s1.rename_history instr_id }

/-- `RegisterAllocator::retire_rename`: erase the history entry, no-op if absent. -/
def retire_rename (s : RegisterAllocator) (instr_id : Nat) : RegisterAllocator :=
  { s with rename_history := historyErase s.rename_history instr_id }

/-- `RegisterAllocator::reset_frontend_RAT`: copy the backend RAT over the
frontend RAT. -/
def reset_frontend_RAT (s : RegisterAllocator) : RegisterAllocator :=
  { s with frontend_RAT := s.backend_RAT }

/-- A destination rename together with its matching `record_rename`, with
`old_phys` captured before the RAT update — the caller contract of spec §4.4
("`rename_dest` must still be matched by exactly one `record_rename` per
destination"); identity when the free list is empty. -/
def renameDestRecorded (s : RegisterAllocator) (reg : Int) (producer_id : Nat) :
    RegisterAllocator :=
  let old := s.frontend_RAT.getD reg.toNat (-1)
  match rename_dest_register s reg producer_id with
  | .error _ => s
  | .ok (s1, p) => record_rename s1 producer_id reg old p

/-- The state effect of `rename_src_register` (identity when the call fails). -/
def renameSrcStep (s : RegisterAllocator) (reg : Int) : RegisterAllocator :=
  match rename_src_register s reg with
  | .error _ => s
  | .ok (s1, _) => s1

/-- Does this checkpoint's `new_phys_reg` denote PRF slot `q`? -/
def hitsSlot (cp : RenameCheckpoint) (q : Nat) : Bool :=
  decide (0 ≤ cp.new_phys_reg) && decide (cp.new_phys_reg.toNat = q)

/-!
Legal operations.  `LegalStep s s'` holds when `s'` arises from `s` by one
public allocator call whose documented preconditions (spec §4.4, §7: all other
anomalies are undefined-behaviour contracts on the caller) hold at `s`:

* `dest`: an in-range architectural register, a non-empty free list, and the
  matching `record_rename` (spec §4.4 note);
* `src`: an in-range architectural register, free list non-empty when a fresh
  allocation is needed;
* `complete`: always legal (idempotent);
* `retire`: an in-range, busy physical register that is not already the
  backend mapping of its own slot (retiring the same destination twice is an
  undefined-behaviour caller contract, spec §7).  The retiring instruction's
  rename history may still be live: spec §4.4 has the caller invoke
  `retire_rename` only once retirement is committed, so the canonical
  `rename_dest` → `complete` → `retire` → `retire_rename` flow is a legal
  sequence;
* `free`: a register that is neither free already, nor recorded in a live
  rename-history entry, nor mapped by the backend RAT (double-free and freeing
  of live registers are caller bugs);
* `undo`: legal when the instruction being squashed is still squashable — its
  recorded checkpoints (if any) satisfy spec §3 invariant 5, "every
  `new_phys_reg` recorded is currently `busy = true`", each is a distinct
  in-range register (each checkpoint allocated a fresh register), and, since
  "squashed instructions by definition have not retired" (spec §4.4) while
  `undo_rename(i)` must precede the retirement of anything younger (spec §5),
  none of them has been promoted into the backend RAT;
* `clear` (`retire_rename`) and `reset`: always legal.
-/
inductive LegalStep : RegisterAllocator → RegisterAllocator → Prop where
  | dest (s : RegisterAllocator) (reg : Int) (i : Nat) :
      0 ≤ reg → reg.toNat < 256 → s.free_registers ≠ [] →
      LegalStep s (renameDestRecorded s reg i)
  | src (s : RegisterAllocator) (reg : Int) :
      0 ≤ reg → reg.toNat < 256 →
      (s.frontend_RAT.getD reg.toNat (-1) < 0 → s.free_registers ≠ []) →
      LegalStep s (renameSrcStep s reg)
  | complete (s : RegisterAllocator) (p : Int) :
      LegalStep s (complete_dest_register s p)
  | retire (s : RegisterAllocator) (p : Int) :
      0 ≤ p → p.toNat < s.physical_register_file.length →
      (s.physical_register_file.getD p.toNat freeSlot).busy = true →
      s.backend_RAT.getD (s.physical_register_file.getD p.toNat freeSlot).arch_reg_index (-1) ≠ p →
      LegalStep s (retire_dest_register s p)
  | free (s : RegisterAllocator) (p : Int) :
      0 ≤ p → p.toNat < s.physical_register_file.length →
      p ∉ s.free_registers → p ∉ allNews s.rename_history →
      (∀ a, a < 256 → s.backend_RAT.getD a (-1) ≠ p) →
      LegalStep s (free_register s p)
  | undo (s : RegisterAllocator) (i : Nat) :
      (∀ cps, historyFind s.rename_history i = some cps →
        (cps.map (fun cp => cp.new_phys_reg)).Nodup ∧
        ∀ cp ∈ cps, 0 ≤ cp.new_phys_reg ∧
          cp.new_phys_reg.toNat < s.physical_register_file.length ∧
          (s.physical_register_file.getD cp.new_phys_reg.toNat freeSlot).busy = true ∧
          (∀ a, a < 256 → s.backend_RAT.getD a (-1) ≠ cp.new_phys_reg)) →
      LegalStep s (undo_rename s i)
  | clear (s : RegisterAllocator) (i : Nat) :
      LegalStep s (retire_rename s i)
  | reset (s : RegisterAllocator) :
      LegalStep s (reset_frontend_RAT s)

/-- The inductive state invariant maintained by every legal operation
(spec §3 "Key invariants" 1, 2 and 6).  `hback` additionally records that a
backend mapping's slot still names its architectural register, which is what
makes retirement release the right register. -/
structure AllocInv (s : RegisterAllocator) : Prop where
  hbl : s.backend_RAT.length = 256
  hnodup : s.free_registers.Nodup
  hfree : ∀ p ∈ s.free_registers, 0 ≤ p ∧ p.toNat < s.physical_register_file.length ∧
      (s.physical_register_file.getD p.toNat freeSlot).busy = false
  hnb : ∀ q, q < s.physical_register_file.length →
      (s.physical_register_file.getD q freeSlot).busy = false →
      (q : Int) ∈ s.free_registers
  hcount : s.free_registers.length +
      s.physical_register_file.countP (fun r => r.busy) = s.physical_register_file.length
  hback : ∀ a, a < 256 → s.backend_RAT.getD a (-1) = -1 ∨
      (0 ≤ s.backend_RAT.getD a (-1) ∧
       (s.backend_RAT.getD a (-1)).toNat < s.physical_register_file.length ∧
       (s.physical_register_file.getD (s.backend_RAT.getD a (-1)).toNat freeSlot).busy = true ∧
       (s.physical_register_file.getD (s.backend_RAT.getD a (-1)).toNat freeSlot).arch_reg_index = a)

/-!
Packed trace-record layout from `tracer/pin/trace_reader.cpp`.  The structs are
declared under `#pragma pack(push, 1)`, so the layout has no padding: each
field sits at the sum of the sizes of the fields before it.  A layout is a list
of (field name, byte size) pairs in declaration order.
-/

/-- `NUM_INSTR_DESTINATIONS_SPARC` from `trace_reader.cpp`. -/
def NUM_INSTR_DESTINATIONS_SPARC : Nat := 4

/-- `NUM_INSTR_DESTINATIONS` from `trace_reader.cpp`. -/
def NUM_INSTR_DESTINATIONS : Nat := 2

/-- `NUM_INSTR_SOURCES` from `trace_reader.cpp`. -/
def NUM_INSTR_SOURCES : Nat := 4

/-- Field layout of `struct input_instr` (packed, declaration order). -/
def input_instr_layout : List (String × Nat) :=
  [("ip", 8),
   ("is_branch", 1),
   ("branch_taken", 1),
   ("destination_registers", NUM_INSTR_DESTINATIONS * 1),
   ("source_registers", NUM_INSTR_SOURCES * 1),
   ("destination_memory", NUM_INSTR_DESTINATIONS * 8),
   ("source_memory", NUM_INSTR_SOURCES * 8)]

/-- Field layout of `struct cloudsuite_instr` (packed, declaration order). -/
def cloudsuite_instr_layout : List (String × Nat) :=
  [("ip", 8),
   ("is_branch", 1),
   ("branch_taken", 1),
   ("destination_registers", NUM_INSTR_DESTINATIONS_SPARC * 1),
   ("source_registers", NUM_INSTR_SOURCES * 1),
   ("destination_memory", NUM_INSTR_DESTINATIONS_SPARC * 8),
   ("source_memory", NUM_INSTR_SOURCES * 8),
   ("asid", 2 * 1)]

/-- Size of a packed record: the sum of its field sizes. -/
def packedSize (l : List (String × Nat)) : Nat := (l.map Prod.snd).sum

/-- Byte offset of each field of a packed record, in declaration order. -/
def packedOffsets (l : List (String × Nat)) : List (String × Nat) :=
  (List.range l.length).map
    (fun i => ((l.getD i ("", 0)).1, packedSize (l.take i)))

/-- A state holding two live renames of arch reg 7 by instruction 200
(used to exercise the theorems on explicit inputs). -/
def stateTwoRenames : RegisterAllocator :=
  { frontend_RAT := (List.replicate 256 (-1)).set 7 1
    backend_RAT := List.replicate 256 (-1)
    free_registers := []
    physical_register_file := [⟨7, 200, false, true⟩, ⟨7, 200, false, true⟩]
    rename_history := [(200, [⟨7, -1, 0, 200⟩, ⟨7, 0, 1, 200⟩])] }

/-- A state where phys reg 1 (arch 5) is ready to retire over old mapping 0. -/
def stateRetire : RegisterAllocator :=
  { frontend_RAT := (List.replicate 256 (-1)).set 5 1
    backend_RAT := (List.replicate 256 (-1)).set 5 0
    free_registers := []
    physical_register_file := [⟨5, 100, true, true⟩, ⟨5, 101, true, true⟩]
    rename_history := [] }

/-- A state whose rename history records an out-of-range `new_phys_reg` 99
against a one-slot register file. -/
def stateOutOfRange : RegisterAllocator :=
  { frontend_RAT := (List.replicate 256 (-1)).set 4 99
    backend_RAT := List.replicate 256 (-1)
    free_registers := []
    physical_register_file := [⟨0, 0, false, false⟩]
    rename_history := [(300, [⟨4, -1, 99, 300⟩])] }

/-- A one-register allocator whose free slot already holds the `0xFF`
free-slot sentinel, as after a prior `free_register` or `undo_rename`. -/
def stateSentinelFree : RegisterAllocator :=
  { frontend_RAT := List.replicate 256 (-1)
    backend_RAT := List.replicate 256 (-1)
    free_registers := [0]
    physical_register_file := [freeSlot]
    rename_history := [] }

/-! ### List helper lemmas -/

theorem getD_set_self {α : Type _} (l : List α) (i : Nat) (v d : α) (h : i < l.length) :
    (l.set i v).getD i d = v := by
  induction l generalizing i with
  | nil => simp at h
  | cons a t ih =>
    cases i with
    | zero => rfl
    | succ n =>
      simp only [List.set_cons_succ, List.getD_cons_succ]
      exact ih n (by simpa using h)

theorem getD_set_ne {α : Type _} (l : List α) (i j : Nat) (v d : α) (h : i ≠ j) :
    (l.set i v).getD j d = l.getD j d := by
  induction l generalizing i j with
  | nil => rfl
  | cons a t ih =>
    cases i with
    | zero =>
      cases j with
      | zero => exact absurd rfl h
      | succ m => rfl
    | succ n =>
      cases j with
      | zero => rfl
      | succ m =>
        simp only [List.set_cons_succ, List.getD_cons_succ]
        exact ih n m (fun hnm => h (by omega))

theorem set_getD_self {α : Type _} (l : List α) (i : Nat) (d : α) (h : i < l.length) :
    l.set i (l.getD i d) = l := by
  induction l generalizing i with
  | nil => rfl
  | cons a t ih =>
    cases i with
    | zero => rfl
    | succ n =>
      simp only [List.getD_cons_succ, List.set_cons_succ, List.cons.injEq, true_and]
      exact ih n (by simpa using h)

theorem set_of_le {α : Type _} (l : List α) (i : Nat) (v : α) (h : l.length ≤ i) :
    l.set i v = l := by
  induction l generalizing i with
  | nil => rfl
  | cons a t ih =>
    cases i with
    | zero => simp at h
    | succ n =>
      simp only [List.set_cons_succ, List.cons.injEq, true_and]
      exact ih n (by simpa using h)

theorem getD_replicate_lt {α : Type _} (n i : Nat) (a d : α) (h : i < n) :
    (List.replicate n a).getD i d = a := by
  induction n generalizing i with
  | zero => omega
  | succ m ih =>
    cases i with
    | zero => rfl
    | succ k =>
      simp only [List.replicate_succ, List.getD_cons_succ]
      exact ih k (by omega)

theorem countP_replicate {α : Type _} (p : α → Bool) (n : Nat) (a : α) :
    (List.replicate n a).countP p = if p a then n else 0 := by
  induction n with
  | zero => simp
  | succ m ih =>
    simp only [List.replicate_succ, List.countP_cons, ih]
    by_cases hp : p a <;> simp [hp]

theorem countP_set {α : Type _} (l : List α) (p : α → Bool) (i : Nat) (v d : α)
    (h : i < l.length) :
    (l.set i v).countP p + (if p (l.getD i d) then 1 else 0) =
      l.countP p + (if p v then 1 else 0) := by
  induction l generalizing i with
  | nil => simp at h
  | cons a t ih =>
    cases i with
    | zero =>
      simp only [List.set_cons_zero, List.getD_cons_zero, List.countP_cons]
      omega
    | succ n =>
      simp only [List.set_cons_succ, List.getD_cons_succ, List.countP_cons]
      have := ih n (by simpa using h)
      omega

theorem countP_set_unbusy (l : List physical_register) (i : Nat) (h : i < l.length)
    (hold : (l.getD i freeSlot).busy = true) :
    (l.set i freeSlot).countP (fun r => r.busy) + 1 = l.countP (fun r => r.busy) := by
  induction l generalizing i with
  | nil => simp at h
  | cons a t ih =>
    cases i with
    | zero =>
      simp only [List.getD_cons_zero] at hold
      simp [List.set_cons_zero, List.countP_cons, hold, freeSlot]
    | succ n =>
      simp only [List.getD_cons_succ] at hold
      simp only [List.set_cons_succ, List.countP_cons]
      have := ih n (by simpa using h) hold
      omega

theorem countP_set_tobusy (l : List physical_register) (i : Nat) (v : physical_register)
    (h : i < l.length) (hold : (l.getD i freeSlot).busy = false) (hv : v.busy = true) :
    (l.set i v).countP (fun r => r.busy) = l.countP (fun r => r.busy) + 1 := by
  induction l generalizing i with
  | nil => simp at h
  | cons a t ih =>
    cases i with
    | zero =>
      simp only [List.getD_cons_zero] at hold
      simp [List.set_cons_zero, List.countP_cons, hold, hv]
    | succ n =>
      simp only [List.getD_cons_succ] at hold
      simp only [List.set_cons_succ, List.countP_cons]
      have := ih n (by simpa using h) hold
      omega

theorem countP_set_samebusy (l : List physical_register) (i : Nat) (v : physical_register)
    (hsame : v.busy = (l.getD i freeSlot).busy) :
    (l.set i v).countP (fun r => r.busy) = l.countP (fun r => r.busy) := by
  induction l generalizing i with
  | nil => simp
  | cons a t ih =>
    cases i with
    | zero =>
      simp only [List.getD_cons_zero] at hsame
      simp [List.set_cons_zero, List.countP_cons, hsame]
    | succ n =>
      simp only [List.getD_cons_succ] at hsame
      simp only [List.set_cons_succ, List.countP_cons]
      have := ih n hsame
      omega

theorem int_toNat_inj {a b : Int} (ha : 0 ≤ a) (hb : 0 ≤ b) (h : a.toNat = b.toNat) :
    a = b := by omega

theorem freeSlot_busy : freeSlot.busy = false := rfl

theorem freeSlot_arch : freeSlot.arch_reg_index = 255 := rfl

theorem find?_append_of_some {α : Type _} {l1 : List α} (l2 : List α) (p : α → Bool)
    {c : α} (h : l1.find? p = some c) : (l1 ++ l2).find? p = some c := by
  induction l1 with
  | nil => simp [List.find?] at h
  | cons a t ih =>
    rw [List.cons_append]
    cases hp : p a with
    | true =>
      rw [List.find?_cons_of_pos _ hp] at h ⊢
      exact h
    | false =>
      rw [List.find?_cons_of_neg _ (by simp [hp])] at h ⊢
      exact ih h

theorem find?_append_of_none {α : Type _} {l1 : List α} (l2 : List α) (p : α → Bool)
    (h : l1.find? p = none) : (l1 ++ l2).find? p = l2.find? p := by
  induction l1 with
  | nil => rfl
  | cons a t ih =>
    rw [List.cons_append]
    cases hp : p a with
    | true =>
      rw [List.find?_cons_of_pos _ hp] at h
      exact absurd h (by simp)
    | false =>
      rw [List.find?_cons_of_neg _ (by simp [hp])] at h ⊢
      exact ih h

/-! ### Rename-history lemmas -/

theorem historyErase_sublist (h : RenameHistory) (i : Nat) :
    (historyErase h i).Sublist h := by
  induction h with
  | nil => simp [historyErase]
  | cons e rest ih =>
    obtain ⟨k, v⟩ := e
    by_cases hk : k = i
    · simp [historyErase, hk]
    · simpa [historyErase, hk] using ih.cons₂ (k, v)

theorem allNews_append (h1 h2 : RenameHistory) :
    allNews (h1 ++ h2) = allNews h1 ++ allNews h2 := by
  induction h1 with
  | nil => rfl
  | cons e rest ih => simp [allNews, ih]

theorem allNews_sublist {h1 h2 : RenameHistory} (h : h1.Sublist h2) :
    (allNews h1).Sublist (allNews h2) := by
  induction h with
  | slnil => exact List.Sublist.refl _
  | cons e _ ih =>
    refine ih.trans ?_
    show (allNews _).Sublist (allNews (e :: _))
    simp only [allNews]
    exact List.sublist_append_right _ _
  | cons₂ e _ ih =>
    show (allNews (e :: _)).Sublist (allNews (e :: _))
    simp only [allNews]
    exact ih.append_left _

theorem mem_allNews {h : RenameHistory} {e : Nat × List RenameCheckpoint}
    {cp : RenameCheckpoint} (he : e ∈ h) (hc : cp ∈ e.2) :
    cp.new_phys_reg ∈ allNews h := by
  induction h with
  | nil => simp at he
  | cons e1 rest ih =>
    rcases List.mem_cons.1 he with h1 | h1
    · subst h1
      exact List.mem_append_left _ (List.mem_map_of_mem _ hc)
    · exact List.mem_append_right _ (ih h1)

theorem historyFind_some_shape {h : RenameHistory} {i : Nat}
    {cps : List RenameCheckpoint} (hf : historyFind h i = some cps) :
    ∃ h1 h2, h = h1 ++ (i, cps) :: h2 ∧ historyErase h i = h1 ++ h2 := by
  induction h with
  | nil => simp [historyFind] at hf
  | cons e rest ih =>
    obtain ⟨k, v⟩ := e
    by_cases hk : k = i
    · subst hk
      simp only [historyFind, eq_self_iff_true, if_true, Option.some.injEq] at hf
      subst hf
      exact ⟨[], rest, rfl, by simp [historyErase]⟩
    · simp only [historyFind, if_neg hk] at hf
      obtain ⟨h1, h2, heq, herase⟩ := ih hf
      exact ⟨(k, v) :: h1, h2, by simp [heq], by simp [historyErase, hk, herase]⟩

theorem historyFind_append_self {h : RenameHistory} {i : Nat}
    (cp : RenameCheckpoint) (hf : historyFind h i = none) :
    historyFind (historyAppend h i cp) i = some [cp] := by
  induction h with
  | nil => simp [historyAppend, historyFind]
  | cons e rest ih =>
    obtain ⟨k, v⟩ := e
    by_cases hk : k = i
    · simp [historyFind, hk] at hf
    · simp only [historyFind, if_neg hk] at hf
      simp only [historyAppend, if_neg hk, historyFind]
      exact ih hf

theorem historyErase_append_of_none {h : RenameHistory} {i : Nat}
    (cp : RenameCheckpoint) (hf : historyFind h i = none) :
    historyErase (historyAppend h i cp) i = h := by
  induction h with
  | nil => simp [historyAppend, historyErase]
  | cons e rest ih =>
    obtain ⟨k, v⟩ := e
    by_cases hk : k = i
    · simp [historyFind, hk] at hf
    · simp only [historyFind, if_neg hk] at hf
      simp only [historyAppend, if_neg hk, historyErase]
      simp [ih hf]

theorem checkpoint_mem_historyAppend {h : RenameHistory} {i : Nat}
    {cp c : RenameCheckpoint} {e : Nat × List RenameCheckpoint}
    (he : e ∈ historyAppend h i cp) (hc : c ∈ e.2) :
    (∃ e2 ∈ h, c ∈ e2.2) ∨ c = cp := by
  induction h with
  | nil =>
    simp only [historyAppend, List.mem_singleton] at he
    subst he
    simp only [List.mem_singleton] at hc
    exact Or.inr hc
  | cons e1 rest ih =>
    obtain ⟨k, v⟩ := e1
    by_cases hk : k = i
    · simp only [historyAppend, if_pos hk, List.mem_cons] at he
      rcases he with h1 | h1
      · subst h1
        simp only [List.mem_append, List.mem_singleton] at hc
        rcases hc with h2 | h2
        · exact Or.inl ⟨(k, v), List.mem_cons_self _ _, h2⟩
        · exact Or.inr h2
      · exact Or.inl ⟨e, List.mem_cons_of_mem _ h1, hc⟩
    · simp only [historyAppend, if_neg hk, List.mem_cons] at he
      rcases he with h1 | h1
      · subst h1
        exact Or.inl ⟨(k, v), List.mem_cons_self _ _, hc⟩
      · rcases ih h1 with h2 | h2
        · obtain ⟨e2, he2, hc2⟩ := h2
          exact Or.inl ⟨e2, List.mem_cons_of_mem _ he2, hc2⟩
        · exact Or.inr h2

theorem allNews_historyAppend_perm (h : RenameHistory) (i : Nat) (cp : RenameCheckpoint) :
    (allNews (historyAppend h i cp)).Perm (cp.new_phys_reg :: allNews h) := by
  induction h with
  | nil => simp [historyAppend, allNews]
  | cons e rest ih =>
    obtain ⟨k, v⟩ := e
    by_cases hk : k = i
    · simp only [historyAppend, if_pos hk, allNews, List.map_append, List.map_cons,
        List.map_nil, List.append_assoc, List.singleton_append]
      exact List.perm_middle
    · simp only [historyAppend, if_neg hk, allNews]
      exact (ih.append_left _).trans List.perm_middle

/-! ### Lemmas about the `undo_rename` checkpoint loop -/

theorem undoCheckpoint_backend (s : RegisterAllocator) (cp : RenameCheckpoint) :
    (undoCheckpoint s cp).backend_RAT = s.backend_RAT := rfl

theorem undoCheckpoint_history (s : RegisterAllocator) (cp : RenameCheckpoint) :
    (undoCheckpoint s cp).rename_history = s.rename_history := rfl

theorem undoCheckpoint_free (s : RegisterAllocator) (cp : RenameCheckpoint) :
    (undoCheckpoint s cp).free_registers = s.free_registers ++ [cp.new_phys_reg] := rfl

theorem undoCheckpoint_prf_length (s : RegisterAllocator) (cp : RenameCheckpoint) :
    (undoCheckpoint s cp).physical_register_file.length =
      s.physical_register_file.length := by
  simp only [undoCheckpoint]
  split <;> simp

theorem undoCheckpoint_frontend_length (s : RegisterAllocator) (cp : RenameCheckpoint) :
    (undoCheckpoint s cp).frontend_RAT.length = s.frontend_RAT.length := by
  simp [undoCheckpoint]

theorem foldUndo_backend (l : List RenameCheckpoint) (s : RegisterAllocator) :
    (l.foldl undoCheckpoint s).backend_RAT = s.backend_RAT := by
  induction l generalizing s with
  | nil => rfl
  | cons cp rest ih => simp [List.foldl_cons, ih, undoCheckpoint_backend]

theorem foldUndo_history (l : List RenameCheckpoint) (s : RegisterAllocator) :
    (l.foldl undoCheckpoint s).rename_history = s.rename_history := by
  induction l generalizing s with
  | nil => rfl
  | cons cp rest ih => simp [List.foldl_cons, ih, undoCheckpoint_history]

theorem foldUndo_free (l : List RenameCheckpoint) (s : RegisterAllocator) :
    (l.foldl undoCheckpoint s).free_registers =
      s.free_registers ++ l.map (fun cp => cp.new_phys_reg) := by
  induction l generalizing s with
  | nil => simp
  | cons cp rest ih =>
    simp [List.foldl_cons, ih, undoCheckpoint_free]

theorem foldUndo_prf_length (l : List RenameCheckpoint) (s : RegisterAllocator) :
    (l.foldl undoCheckpoint s).physical_register_file.length =
      s.physical_register_file.length := by
  induction l generalizing s with
  | nil => rfl
  | cons cp rest ih =>
    simp [List.foldl_cons, ih, undoCheckpoint_prf_length]

theorem foldUndo_frontend_length (l : List RenameCheckpoint) (s : RegisterAllocator) :
    (l.foldl undoCheckpoint s).frontend_RAT.length = s.frontend_RAT.length := by
  induction l generalizing s with
  | nil => rfl
  | cons cp rest ih =>
    simp [List.foldl_cons, ih, undoCheckpoint_frontend_length]

theorem foldUndo_prf_getD (l : List RenameCheckpoint) (s : RegisterAllocator) (q : Nat)
    (hq : q < s.physical_register_file.length) :
    (l.foldl undoCheckpoint s).physical_register_file.getD q freeSlot =
      if l.any (fun cp => hitsSlot cp q) then freeSlot
      else s.physical_register_file.getD q freeSlot := by
  induction l generalizing s with
  | nil => simp
  | cons cp rest ih =>
    rw [List.foldl_cons]
    rw [ih (undoCheckpoint s cp) (by rw [undoCheckpoint_prf_length]; exact hq)]
    have hstep : (undoCheckpoint s cp).physical_register_file.getD q freeSlot =
        if hitsSlot cp q then freeSlot else s.physical_register_file.getD q freeSlot := by
      simp only [undoCheckpoint]
      by_cases hh : hitsSlot cp q
      · have h0 : 0 ≤ cp.new_phys_reg := by
          have := hh
          unfold hitsSlot at this
          simp only [Bool.and_eq_true, decide_eq_true_eq] at this
          exact this.1
        have hqeq : cp.new_phys_reg.toNat = q := by
          have := hh
          unfold hitsSlot at this
          simp only [Bool.and_eq_true, decide_eq_true_eq] at this
          exact this.2
        rw [if_pos ⟨h0, by omega⟩, if_pos hh]
        rw [← hqeq] at hq ⊢
        exact getD_set_self _ _ _ _ (by omega)
      · rw [if_neg hh]
        by_cases hc : 0 ≤ cp.new_phys_reg ∧
            cp.new_phys_reg.toNat < s.physical_register_file.length
        · rw [if_pos hc]
          have hne : cp.new_phys_reg.toNat ≠ q := by
            intro heq
            exact hh (by unfold hitsSlot; simp [hc.1, heq])
          exact getD_set_ne _ _ _ _ _ hne
        · rw [if_neg hc]
    rw [hstep]
    by_cases h1 : hitsSlot cp q <;> by_cases h2 : rest.any (fun cp => hitsSlot cp q) <;>
      simp [List.any_cons, h1, h2]

theorem foldUndo_prf_of_miss (l : List RenameCheckpoint) (s : RegisterAllocator)
    (h : ∀ cp ∈ l, cp.new_phys_reg < 0 ∨
        s.physical_register_file.length ≤ cp.new_phys_reg.toNat) :
    (l.foldl undoCheckpoint s).physical_register_file = s.physical_register_file := by
  induction l generalizing s with
  | nil => rfl
  | cons cp rest ih =>
    rw [List.foldl_cons]
    have hcp := h cp (List.mem_cons_self _ _)
    have hnc : ¬(0 ≤ cp.new_phys_reg ∧
        cp.new_phys_reg.toNat < s.physical_register_file.length) := by
      intro hc
      rcases hcp with h1 | h1 <;> omega
    have hstep : (undoCheckpoint s cp).physical_register_file =
        s.physical_register_file := by
      simp only [undoCheckpoint]
      rw [if_neg hnc]
    rw [ih (undoCheckpoint s cp) (by rw [hstep]; exact fun c hc => h c (List.mem_cons_of_mem _ hc)),
      hstep]

theorem foldUndo_frontend (l : List RenameCheckpoint) (s : RegisterAllocator) (j : Nat)
    (hj : j < s.frontend_RAT.length) :
    (l.foldl undoCheckpoint s).frontend_RAT.getD j (-1) =
      ((l.reverse.find? (fun cp => cp.arch_reg.toNat == j)).map
        (fun cp => cp.old_phys_reg)).getD (s.frontend_RAT.getD j (-1)) := by
  induction l generalizing s with
  | nil => simp
  | cons cp rest ih =>
    rw [List.foldl_cons]
    rw [ih (undoCheckpoint s cp) (by rw [undoCheckpoint_frontend_length]; exact hj)]
    rw [List.reverse_cons]
    cases hfind : rest.reverse.find? (fun cp => cp.arch_reg.toNat == j) with
    | some c =>
      rw [find?_append_of_some _ _ hfind]
      simp
    | none =>
      rw [find?_append_of_none _ _ hfind]
      by_cases harch : cp.arch_reg.toNat = j
      · rw [List.find?_cons_of_pos _ (by simpa using harch)]
        show (undoCheckpoint s cp).frontend_RAT.getD j (-1) = cp.old_phys_reg
        simp only [undoCheckpoint]
        rw [← harch]
        exact getD_set_self _ _ _ _ (by rw [harch]; exact hj)
      · rw [List.find?_cons_of_neg _ (by simpa using harch)]
        show (undoCheckpoint s cp).frontend_RAT.getD j (-1) =
          s.frontend_RAT.getD j (-1)
        simp only [undoCheckpoint]
        exact getD_set_ne _ _ _ _ _ harch

theorem foldUndo_countP (l : List RenameCheckpoint) (s : RegisterAllocator)
    (hl : ∀ cp ∈ l, 0 ≤ cp.new_phys_reg ∧
        cp.new_phys_reg.toNat < s.physical_register_file.length ∧
        (s.physical_register_file.getD cp.new_phys_reg.toNat freeSlot).busy = true)
    (hnd : (l.map (fun cp => cp.new_phys_reg)).Nodup) :
    (l.foldl undoCheckpoint s).physical_register_file.countP (fun r => r.busy) + l.length =
      s.physical_register_file.countP (fun r => r.busy) := by
  induction l generalizing s with
  | nil => simp
  | cons cp rest ih =>
    rw [List.foldl_cons]
    obtain ⟨h0, hlt, hbusy⟩ := hl cp (List.mem_cons_self _ _)
    have hprf : (undoCheckpoint s cp).physical_register_file =
        s.physical_register_file.set cp.new_phys_reg.toNat freeSlot := by
      simp only [undoCheckpoint]
      rw [if_pos ⟨h0, hlt⟩]
    have hcount := countP_set_unbusy s.physical_register_file
      cp.new_phys_reg.toNat hlt hbusy
    have hmemnd : cp.new_phys_reg ∉ rest.map (fun cp => cp.new_phys_reg) := by
      simp only [List.map_cons, List.nodup_cons] at hnd
      exact hnd.1
    have hrest : ∀ c ∈ rest, 0 ≤ c.new_phys_reg ∧
        c.new_phys_reg.toNat < (undoCheckpoint s cp).physical_register_file.length ∧
        ((undoCheckpoint s cp).physical_register_file.getD c.new_phys_reg.toNat freeSlot).busy
          = true := by
      intro c hc
      obtain ⟨hc0, hclt, hcbusy⟩ := hl c (List.mem_cons_of_mem _ hc)
      refine ⟨hc0, by rw [undoCheckpoint_prf_length]; exact hclt, ?_⟩
      rw [hprf]
      have hne : cp.new_phys_reg.toNat ≠ c.new_phys_reg.toNat := by
        intro heq
        exact hmemnd (by
          have : cp.new_phys_reg = c.new_phys_reg := int_toNat_inj h0 hc0 heq
          rw [this]
          exact List.mem_map_of_mem _ hc)
      rw [getD_set_ne _ _ _ _ _ hne]
      exact hcbusy
    have ihr := ih (undoCheckpoint s cp) hrest
      (by simp only [List.map_cons, List.nodup_cons] at hnd; exact hnd.2)
    rw [hprf] at ihr
    simp only [List.length_cons]
    omega

/-! ### Projections of `undo_rename` -/

theorem undo_rename_of_none {s : RegisterAllocator} {i : Nat}
    (h : historyFind s.rename_history i = none) : undo_rename s i = s := by
  simp [undo_rename, h]

theorem undo_backend_eq (s : RegisterAllocator) (i : Nat) :
    (undo_rename s i).backend_RAT = s.backend_RAT := by
  unfold undo_rename
  cases h : historyFind s.rename_history i with
  | none => rfl
  | some cps => exact foldUndo_backend cps.reverse s

theorem undo_history_eq {s : RegisterAllocator} {i : Nat} {cps : List RenameCheckpoint}
    (h : historyFind s.rename_history i = some cps) :
    (undo_rename s i).rename_history = historyErase s.rename_history i := by
  simp only [undo_rename, h]
  rw [foldUndo_history]

theorem undo_free_eq {s : RegisterAllocator} {i : Nat} {cps : List RenameCheckpoint}
    (h : historyFind s.rename_history i = some cps) :
    (undo_rename s i).free_registers =
      s.free_registers ++ cps.reverse.map (fun cp => cp.new_phys_reg) := by
  simp only [undo_rename, h]
  exact foldUndo_free cps.reverse s

theorem undo_prf_eq {s : RegisterAllocator} {i : Nat} {cps : List RenameCheckpoint}
    (h : historyFind s.rename_history i = some cps) :
    (undo_rename s i).physical_register_file =
      (cps.reverse.foldl undoCheckpoint s).physical_register_file := by
  simp only [undo_rename, h]

theorem undo_frontend_eq {s : RegisterAllocator} {i : Nat} {cps : List RenameCheckpoint}
    (h : historyFind s.rename_history i = some cps) :
    (undo_rename s i).frontend_RAT =
      (cps.reverse.foldl undoCheckpoint s).frontend_RAT := by
  simp only [undo_rename, h]

/-! ### Small membership and nodup helpers -/

theorem nodup_append_singleton {α : Type _} {l : List α} {a : α}
    (h : l.Nodup) (ha : a ∉ l) : (l ++ [a]).Nodup := by
  induction l with
  | nil => simp
  | cons b t ih =>
    simp only [List.nodup_cons] at h
    simp only [List.cons_append, List.nodup_cons]
    constructor
    · intro hb
      rcases List.mem_append.1 hb with h1 | h1
      · exact h.1 h1
      · rcases List.mem_singleton.1 h1 with rfl
        exact ha (List.mem_cons_self _ _)
    · exact ih h.2 (fun hmem => ha (List.mem_cons_of_mem _ hmem))

theorem exists_of_mem_allNews {h : RenameHistory} {x : Int} (hx : x ∈ allNews h) :
    ∃ e ∈ h, ∃ cp ∈ e.2, cp.new_phys_reg = x := by
  induction h with
  | nil => simp [allNews] at hx
  | cons e rest ih =>
    simp only [allNews, List.mem_append] at hx
    rcases hx with h1 | h1
    · obtain ⟨cp, hcp, heq⟩ := List.mem_map.1 h1
      exact ⟨e, List.mem_cons_self _ _, cp, hcp, heq⟩
    · obtain ⟨e2, he2, cp, hcp, heq⟩ := ih h1
      exact ⟨e2, List.mem_cons_of_mem _ he2, cp, hcp, heq⟩

theorem AllocInv.busy_of_not_mem_free {s : RegisterAllocator} (inv : AllocInv s)
    {p : Int} (h0 : 0 ≤ p) (hlt : p.toNat < s.physical_register_file.length)
    (hnf : p ∉ s.free_registers) :
    (s.physical_register_file.getD p.toNat freeSlot).busy = true := by
  cases hb : (s.physical_register_file.getD p.toNat freeSlot).busy with
  | true => rfl
  | false =>
    have hmem := inv.hnb p.toNat hlt hb
    rw [Int.toNat_of_nonneg h0] at hmem
    exact absurd hmem hnf

/-! ### Invariant preservation, one legal operation at a time -/

theorem inv_reset {s : RegisterAllocator} (inv : AllocInv s) :
    AllocInv (reset_frontend_RAT s) :=
  ⟨inv.hbl, inv.hnodup, inv.hfree, inv.hnb, inv.hcount, inv.hback⟩

theorem inv_clear {s : RegisterAllocator} (inv : AllocInv s) (i : Nat) :
    AllocInv (retire_rename s i) :=
  ⟨inv.hbl, inv.hnodup, inv.hfree, inv.hnb, inv.hcount, inv.hback⟩

theorem complete_prf_length (s : RegisterAllocator) (p : Int) :
    (complete_dest_register s p).physical_register_file.length =
      s.physical_register_file.length := by
  simp [complete_dest_register]

theorem complete_prf_busy_arch (s : RegisterAllocator) (p : Int) (q : Nat) :
    ((complete_dest_register s p).physical_register_file.getD q freeSlot).busy =
      (s.physical_register_file.getD q freeSlot).busy ∧
    ((complete_dest_register s p).physical_register_file.getD q freeSlot).arch_reg_index =
      (s.physical_register_file.getD q freeSlot).arch_reg_index := by
  show ((s.physical_register_file.set p.toNat _).getD q freeSlot).busy = _ ∧
    ((s.physical_register_file.set p.toNat _).getD q freeSlot).arch_reg_index = _
  by_cases hlen : p.toNat < s.physical_register_file.length
  · by_cases hq : p.toNat = q
    · subst hq
      rw [getD_set_self _ _ _ _ hlen]
      exact ⟨rfl, rfl⟩
    · rw [getD_set_ne _ _ _ _ _ hq]
      exact ⟨rfl, rfl⟩
  · rw [set_of_le _ _ _ (by omega)]
    exact ⟨rfl, rfl⟩

theorem complete_countP (s : RegisterAllocator) (p : Int) :
    (complete_dest_register s p).physical_register_file.countP (fun r => r.busy) =
      s.physical_register_file.countP (fun r => r.busy) :=
  countP_set_samebusy _ _ _ rfl

theorem inv_complete {s : RegisterAllocator} (inv : AllocInv s) (p : Int) :
    AllocInv (complete_dest_register s p) := by
  refine ⟨inv.hbl, inv.hnodup, ?_, ?_, ?_, ?_⟩
  · intro q hq
    obtain ⟨q0, qlt, qb⟩ := inv.hfree q hq
    refine ⟨q0, by rw [complete_prf_length]; exact qlt, ?_⟩
    rw [(complete_prf_busy_arch s p _).1]
    exact qb
  · intro q hq hb
    rw [complete_prf_length] at hq
    rw [(complete_prf_busy_arch s p _).1] at hb
    exact inv.hnb q hq hb
  · show s.free_registers.length + _ = _
    rw [complete_countP, complete_prf_length]
    exact inv.hcount
  · intro a ha
    rcases inv.hback a ha with hl | ⟨b0, br, bb, barch⟩
    · exact Or.inl hl
    · exact Or.inr ⟨b0, by rw [complete_prf_length]; exact br,
        by rw [(complete_prf_busy_arch s p _).1]; exact bb,
        by rw [(complete_prf_busy_arch s p _).2]; exact barch⟩

theorem free_prf_length (s : RegisterAllocator) (p : Int) :
    (free_register s p).physical_register_file.length =
      s.physical_register_file.length := by
  simp [free_register]

theorem free_prf_getD_self (s : RegisterAllocator) (p : Int)
    (h : p.toNat < s.physical_register_file.length) :
    (free_register s p).physical_register_file.getD p.toNat freeSlot = freeSlot :=
  getD_set_self _ _ _ _ h

theorem free_prf_getD_ne (s : RegisterAllocator) (p : Int) (q : Nat)
    (h : p.toNat ≠ q) :
    (free_register s p).physical_register_file.getD q freeSlot =
      s.physical_register_file.getD q freeSlot :=
  getD_set_ne _ _ _ _ _ h

theorem free_length (s : RegisterAllocator) (p : Int) :
    (free_register s p).free_registers.length = s.free_registers.length + 1 := by
  simp [free_register]

theorem free_countP (s : RegisterAllocator) (p : Int)
    (hlt : p.toNat < s.physical_register_file.length)
    (hbusy : (s.physical_register_file.getD p.toNat freeSlot).busy = true) :
    (free_register s p).physical_register_file.countP (fun r => r.busy) + 1 =
      s.physical_register_file.countP (fun r => r.busy) :=
  countP_set_unbusy _ _ hlt hbusy

theorem inv_free {s : RegisterAllocator} (inv : AllocInv s) {p : Int}
    (h0 : 0 ≤ p) (hlt : p.toNat < s.physical_register_file.length)
    (hnf : p ∉ s.free_registers)
    (hnbk : ∀ a, a < 256 → s.backend_RAT.getD a (-1) ≠ p) :
    AllocInv (free_register s p) := by
  have hbusy := inv.busy_of_not_mem_free h0 hlt hnf
  refine ⟨inv.hbl, nodup_append_singleton inv.hnodup hnf, ?_, ?_, ?_, ?_⟩
  · intro q hq
    rcases List.mem_append.1 hq with h1 | h1
    · obtain ⟨q0, qlt, qb⟩ := inv.hfree q h1
      have hqp : q ≠ p := fun he => hnf (he ▸ h1)
      have hne : p.toNat ≠ q.toNat := fun he => hqp (int_toNat_inj q0 h0 he.symm)
      refine ⟨q0, by rw [free_prf_length]; exact qlt, ?_⟩
      rw [free_prf_getD_ne _ _ _ hne]
      exact qb
    · rcases List.mem_singleton.1 h1 with rfl
      exact ⟨h0, by rw [free_prf_length]; exact hlt,
        by rw [free_prf_getD_self _ _ hlt]; rfl⟩
  · intro q hq hb
    rw [free_prf_length] at hq
    by_cases hqp : q = p.toNat
    · have hqi : (q : Int) = p := by omega
      rw [hqi]
      exact List.mem_append_right _ (List.mem_singleton.2 rfl)
    · rw [free_prf_getD_ne _ _ _ (fun he => hqp he.symm)] at hb
      exact List.mem_append_left _ (inv.hnb q hq hb)
  · rw [free_length, free_prf_length]
    have hc := free_countP s p hlt hbusy
    have := inv.hcount
    omega
  · intro a ha
    rcases inv.hback a ha with hl | ⟨b0, br, bb, barch⟩
    · exact Or.inl hl
    · right
      have hne2 : p.toNat ≠ ((free_register s p).backend_RAT.getD a (-1)).toNat :=
        fun heq => hnbk a ha (int_toNat_inj b0 h0 heq.symm)
      exact ⟨b0, by rw [free_prf_length]; exact br,
        by rw [free_prf_getD_ne _ _ _ hne2]; exact bb,
        by rw [free_prf_getD_ne _ _ _ hne2]; exact barch⟩

theorem renameDestRecorded_nil {s : RegisterAllocator} (reg : Int) (i : Nat)
    (h : s.free_registers = []) : renameDestRecorded s reg i = s := by
  simp [renameDestRecorded, rename_dest_register, h]

theorem renameDestRecorded_cons {s : RegisterAllocator} (reg : Int) (i : Nat)
    {p : Int} {rest : List Int} (h : s.free_registers = p :: rest) :
    renameDestRecorded s reg i =
      { frontend_RAT := s.frontend_RAT.set reg.toNat p
        backend_RAT := s.backend_RAT
        free_registers := rest
        physical_register_file :=
          s.physical_register_file.set p.toNat ⟨reg.toNat, i, false, true⟩
        rename_history := historyAppend s.rename_history i
          ⟨reg, s.frontend_RAT.getD reg.toNat (-1), p, i⟩ } := by
  simp [renameDestRecorded, rename_dest_register, h, record_rename]

theorem renameSrcStep_mapped {s : RegisterAllocator} (reg : Int)
    (h : ¬ s.frontend_RAT.getD reg.toNat (-1) < 0) : renameSrcStep s reg = s := by
  have h' : ¬ s.frontend_RAT[reg.toNat]?.getD (-1) < 0 := by
    rw [← List.getD_eq_getElem?_getD]
    exact h
  simp [renameSrcStep, rename_src_register, h']

theorem renameSrcStep_nilfree {s : RegisterAllocator} (reg : Int)
    (h1 : s.frontend_RAT.getD reg.toNat (-1) < 0) (h2 : s.free_registers = []) :
    renameSrcStep s reg = s := by
  have h1' : s.frontend_RAT[reg.toNat]?.getD (-1) < 0 := by
    rw [← List.getD_eq_getElem?_getD]
    exact h1
  simp [renameSrcStep, rename_src_register, h1', h2]

theorem renameSrcStep_fresh {s : RegisterAllocator} (reg : Int)
    {p : Int} {rest : List Int}
    (h1 : s.frontend_RAT.getD reg.toNat (-1) < 0) (h2 : s.free_registers = p :: rest) :
    renameSrcStep s reg =
      { frontend_RAT := s.frontend_RAT.set reg.toNat p
        backend_RAT := s.backend_RAT.set reg.toNat p
        free_registers := rest
        physical_register_file :=
          s.physical_register_file.set p.toNat ⟨reg.toNat, 0, true, true⟩
        rename_history := s.rename_history } := by
  have h1' : s.frontend_RAT[reg.toNat]?.getD (-1) < 0 := by
    rw [← List.getD_eq_getElem?_getD]
    exact h1
  simp [renameSrcStep, rename_src_register, h1', h2]


theorem inv_dest {s : RegisterAllocator} (inv : AllocInv s) (reg : Int) (i : Nat) :
    AllocInv (renameDestRecorded s reg i) := by
  cases hf : s.free_registers with
  | nil => rw [renameDestRecorded_nil reg i hf]; exact inv
  | cons p rest =>
    obtain ⟨p0, plt, pnb⟩ := inv.hfree p (by rw [hf]; exact List.mem_cons_self _ _)
    have hnd : (p :: rest).Nodup := by rw [← hf]; exact inv.hnodup
    have pnotrest : p ∉ rest := (List.nodup_cons.1 hnd).1
    have restnd : rest.Nodup := (List.nodup_cons.1 hnd).2
    rw [renameDestRecorded_cons reg i hf]
    refine ⟨?_, ?_, ?_, ?_, ?_, ?_⟩ <;> dsimp only
    · exact inv.hbl
    · exact restnd
    · intro q hq
      obtain ⟨q0, qlt, qnb⟩ := inv.hfree q (by rw [hf]; exact List.mem_cons_of_mem _ hq)
      have hqp : q ≠ p := fun he => pnotrest (he ▸ hq)
      have hnep : p.toNat ≠ q.toNat := fun he => hqp (int_toNat_inj q0 p0 he.symm)
      refine ⟨q0, ?_, ?_⟩
      · rw [List.length_set]
        exact qlt
      · rw [getD_set_ne _ _ _ _ _ hnep]
        exact qnb
    · intro q hq hb
      rw [List.length_set] at hq
      by_cases hqp : q = p.toNat
      · exfalso
        rw [hqp, getD_set_self _ _ _ _ plt] at hb
        exact absurd hb (by simp)
      · rw [getD_set_ne _ _ _ _ _ (fun he => hqp he.symm)] at hb
        have hmem := inv.hnb q hq hb
        rw [hf] at hmem
        rcases List.mem_cons.1 hmem with h1 | h1
        · exact absurd (by omega : q = p.toNat) hqp
        · exact h1
    · rw [List.length_set,
        countP_set_tobusy s.physical_register_file p.toNat _ plt pnb rfl]
      have hc := inv.hcount
      rw [hf] at hc
      simp only [List.length_cons] at hc
      omega
    · intro a ha
      rcases inv.hback a ha with hl | ⟨b0, br, bb, barch⟩
      · exact Or.inl hl
      · right
        have hbp : s.backend_RAT.getD a (-1) ≠ p := by
          intro he
          rw [he, pnb] at bb
          exact absurd bb (by simp)
        have hnep : p.toNat ≠ (s.backend_RAT.getD a (-1)).toNat :=
          fun he => hbp (int_toNat_inj b0 p0 he.symm)
        refine ⟨b0, ?_, ?_, ?_⟩
        · rw [List.length_set]
          exact br
        · rw [getD_set_ne _ _ _ _ _ hnep]
          exact bb
        · rw [getD_set_ne _ _ _ _ _ hnep]
          exact barch

theorem inv_src {s : RegisterAllocator} (inv : AllocInv s) (reg : Int)
    (hreg : reg.toNat < 256) : AllocInv (renameSrcStep s reg) := by
  by_cases hmap : s.frontend_RAT.getD reg.toNat (-1) < 0
  · cases hf : s.free_registers with
    | nil => rw [renameSrcStep_nilfree reg hmap hf]; exact inv
    | cons p rest =>
      obtain ⟨p0, plt, pnb⟩ := inv.hfree p (by rw [hf]; exact List.mem_cons_self _ _)
      have hnd : (p :: rest).Nodup := by rw [← hf]; exact inv.hnodup
      have pnotrest : p ∉ rest := (List.nodup_cons.1 hnd).1
      have restnd : rest.Nodup := (List.nodup_cons.1 hnd).2
      rw [renameSrcStep_fresh reg hmap hf]
      refine ⟨?_, ?_, ?_, ?_, ?_, ?_⟩ <;> dsimp only
      · rw [List.length_set]
        exact inv.hbl
      · exact restnd
      · intro q hq
        obtain ⟨q0, qlt, qnb⟩ := inv.hfree q (by rw [hf]; exact List.mem_cons_of_mem _ hq)
        have hqp : q ≠ p := fun he => pnotrest (he ▸ hq)
        have hnep : p.toNat ≠ q.toNat := fun he => hqp (int_toNat_inj q0 p0 he.symm)
        refine ⟨q0, ?_, ?_⟩
        · rw [List.length_set]
          exact qlt
        · rw [getD_set_ne _ _ _ _ _ hnep]
          exact qnb
      · intro q hq hb
        rw [List.length_set] at hq
        by_cases hqp : q = p.toNat
        · exfalso
          rw [hqp, getD_set_self _ _ _ _ plt] at hb
          exact absurd hb (by simp)
        · rw [getD_set_ne _ _ _ _ _ (fun he => hqp he.symm)] at hb
          have hmem := inv.hnb q hq hb
          rw [hf] at hmem
          rcases List.mem_cons.1 hmem with h1 | h1
          · exact absurd (by omega : q = p.toNat) hqp
          · exact h1
      · rw [List.length_set,
          countP_set_tobusy s.physical_register_file p.toNat _ plt pnb rfl]
        have hc := inv.hcount
        rw [hf] at hc
        simp only [List.length_cons] at hc
        omega
      · intro a ha
        by_cases har : a = reg.toNat
        · right
          subst har
          rw [getD_set_self _ _ _ _ (by rw [inv.hbl]; exact hreg)]
          refine ⟨p0, ?_, ?_, ?_⟩
          · rw [List.length_set]
            exact plt
          · rw [getD_set_self _ _ _ _ plt]
          · rw [getD_set_self _ _ _ _ plt]
        · rw [getD_set_ne _ _ _ _ _ (fun he => har he.symm)]
          rcases inv.hback a ha with hl | ⟨b0, br, bb, barch⟩
          · exact Or.inl hl
          · right
            have hbp : s.backend_RAT.getD a (-1) ≠ p := by
              intro he
              rw [he, pnb] at bb
              exact absurd bb (by simp)
            have hnep : p.toNat ≠ (s.backend_RAT.getD a (-1)).toNat :=
              fun he => hbp (int_toNat_inj b0 p0 he.symm)
            refine ⟨b0, ?_, ?_, ?_⟩
            · rw [List.length_set]
              exact br
            · rw [getD_set_ne _ _ _ _ _ hnep]
              exact bb
            · rw [getD_set_ne _ _ _ _ _ hnep]
              exact barch
  · rw [renameSrcStep_mapped reg hmap]
    exact inv

theorem getD_of_le {α : Type _} (l : List α) (i : Nat) (d : α) (h : l.length ≤ i) :
    l.getD i d = d := by
  induction l generalizing i with
  | nil => cases i <;> rfl
  | cons a t ih =>
    cases i with
    | zero => simp at h
    | succ n =>
      simp only [List.getD_cons_succ]
      exact ih n (by simpa using h)

theorem inv_backend_set {s : RegisterAllocator} (inv : AllocInv s) {p : Int} {A : Nat}
    (h0 : 0 ≤ p) (hlt : p.toNat < s.physical_register_file.length)
    (hbusy : (s.physical_register_file.getD p.toNat freeSlot).busy = true)
    (hA : (s.physical_register_file.getD p.toNat freeSlot).arch_reg_index = A) :
    AllocInv { s with backend_RAT := s.backend_RAT.set A p } := by
  by_cases hA256 : A < 256
  · refine ⟨?_, inv.hnodup, inv.hfree, inv.hnb, inv.hcount, ?_⟩ <;> dsimp only
    · rw [List.length_set]
      exact inv.hbl
    · intro a ha
      by_cases haA : a = A
      · subst haA
        rw [getD_set_self _ _ _ _ (by rw [inv.hbl]; exact ha)]
        exact Or.inr ⟨h0, hlt, hbusy, hA⟩
      · rw [getD_set_ne _ _ _ _ _ (fun he => haA he.symm)]
        exact inv.hback a ha
  · have hset : s.backend_RAT.set A p = s.backend_RAT :=
      set_of_le _ _ _ (by rw [inv.hbl]; omega)
    have heq : ({ s with backend_RAT := s.backend_RAT.set A p } : RegisterAllocator)
        = s := by
      rw [hset]
    rw [heq]
    exact inv

theorem inv_retire {s : RegisterAllocator} (inv : AllocInv s) {p : Int}
    (h0 : 0 ≤ p) (hlt : p.toNat < s.physical_register_file.length)
    (hbusy : (s.physical_register_file.getD p.toNat freeSlot).busy = true)
    (hnr : s.backend_RAT.getD
      (s.physical_register_file.getD p.toNat freeSlot).arch_reg_index (-1) ≠ p) :
    AllocInv (retire_dest_register s p) := by
  have inv1 := inv_backend_set inv h0 hlt hbusy rfl
  simp only [retire_dest_register]
  by_cases hold : s.backend_RAT.getD
      (s.physical_register_file.getD p.toNat freeSlot).arch_reg_index (-1) ≠ -1
  · rw [if_pos hold]
    have hA256 : (s.physical_register_file.getD p.toNat freeSlot).arch_reg_index < 256 := by
      by_contra hge
      exact hold (getD_of_le _ _ _ (by rw [inv.hbl]; omega))
    rcases inv.hback _ hA256 with hl | ⟨o0, olt, obusy, oarch⟩
    · exact absurd hl hold
    · refine inv_free inv1 o0 olt ?_ ?_
      · intro hmem
        obtain ⟨_, _, onb⟩ := inv.hfree _ hmem
        rw [obusy] at onb
        exact absurd onb (by simp)
      · intro a ha
        dsimp only
        by_cases haA : a =
            (s.physical_register_file.getD p.toNat freeSlot).arch_reg_index
        · subst haA
          rw [getD_set_self _ _ _ _ (by rw [inv.hbl]; exact ha)]
          exact fun he => hnr he.symm
        · rw [getD_set_ne _ _ _ _ _ (fun he => haA he.symm)]
          intro he
          rcases inv.hback a ha with hl2 | ⟨b0, br, bb, barch⟩
          · rw [hl2] at he
            exact hold he.symm
          · rw [he] at barch
            rw [oarch] at barch
            exact haA barch.symm
  · rw [if_neg hold]
    exact inv1

theorem hit_iff (cps : List RenameCheckpoint) (q : Nat) :
    (cps.reverse.any (fun cp => hitsSlot cp q) = true) ↔
      ∃ cp ∈ cps, 0 ≤ cp.new_phys_reg ∧ cp.new_phys_reg.toNat = q := by
  rw [List.any_eq_true]
  constructor
  · rintro ⟨cp, hcp, hh⟩
    rw [List.mem_reverse] at hcp
    unfold hitsSlot at hh
    simp only [Bool.and_eq_true, decide_eq_true_eq] at hh
    exact ⟨cp, hcp, hh.1, hh.2⟩
  · rintro ⟨cp, hcp, h0x, hq⟩
    refine ⟨cp, List.mem_reverse.2 hcp, ?_⟩
    unfold hitsSlot
    simp [h0x, hq]

theorem inv_undo {s : RegisterAllocator} (inv : AllocInv s) (i : Nat)
    (hpre : ∀ cps, historyFind s.rename_history i = some cps →
      (cps.map (fun cp => cp.new_phys_reg)).Nodup ∧
      ∀ cp ∈ cps, 0 ≤ cp.new_phys_reg ∧
        cp.new_phys_reg.toNat < s.physical_register_file.length ∧
        (s.physical_register_file.getD cp.new_phys_reg.toNat freeSlot).busy = true ∧
        (∀ a, a < 256 → s.backend_RAT.getD a (-1) ≠ cp.new_phys_reg)) :
    AllocInv (undo_rename s i) := by
  cases hfind : historyFind s.rename_history i with
  | none => rw [undo_rename_of_none hfind]; exact inv
  | some cps =>
    obtain ⟨hmidnd, hcf⟩ := hpre cps hfind
    have hfree_list := undo_free_eq hfind
    have hprf := undo_prf_eq hfind
    have hback2 := undo_backend_eq s i
    have hlen := foldUndo_prf_length cps.reverse s
    have hcfr : ∀ cp ∈ cps.reverse, 0 ≤ cp.new_phys_reg ∧
        cp.new_phys_reg.toNat < s.physical_register_file.length ∧
        (s.physical_register_file.getD cp.new_phys_reg.toNat freeSlot).busy = true := by
      intro cp hcp
      have h := hcf cp (List.mem_reverse.1 hcp)
      exact ⟨h.1, h.2.1, h.2.2.1⟩
    have hndr : (cps.reverse.map (fun cp => cp.new_phys_reg)).Nodup := by
      rw [List.map_reverse]
      exact List.nodup_reverse.2 hmidnd
    have hcount2 := foldUndo_countP cps.reverse s hcfr hndr
    have hmem_news : ∀ x : Int, x ∈ cps.reverse.map (fun cp => cp.new_phys_reg) →
        x ∈ cps.map (fun cp => cp.new_phys_reg) := by
      intro x hx
      rw [List.map_reverse, List.mem_reverse] at hx
      exact hx
    have hnews_fact : ∀ x : Int, x ∈ cps.map (fun cp => cp.new_phys_reg) →
        0 ≤ x ∧ x.toNat < s.physical_register_file.length ∧
        (s.physical_register_file.getD x.toNat freeSlot).busy = true := by
      intro x hx
      obtain ⟨cp, hcp, rfl⟩ := List.mem_map.1 hx
      have h := hcf cp hcp
      exact ⟨h.1, h.2.1, h.2.2.1⟩
    have hnothit_of_notmem : ∀ q : Nat, (q : Int) ∉ cps.map (fun cp => cp.new_phys_reg) →
        ¬(cps.reverse.any (fun cp => hitsSlot cp q) = true) := by
      intro q hq hh
      obtain ⟨cp, hcp, hc0, hcq⟩ := (hit_iff cps q).1 hh
      have : cp.new_phys_reg = (q : Int) := by omega
      exact hq (this ▸ List.mem_map_of_mem _ hcp)
    refine ⟨?_, ?_, ?_, ?_, ?_, ?_⟩
    · rw [hback2]
      exact inv.hbl
    · rw [hfree_list]
      refine List.nodup_append.2 ⟨inv.hnodup, hndr, ?_⟩
      intro x hx1 hx2
      obtain ⟨_, _, xnb⟩ := inv.hfree x hx1
      have := (hnews_fact x (hmem_news x hx2)).2.2
      rw [xnb] at this
      exact absurd this (by simp)
    · intro q hq
      rw [hfree_list] at hq
      rcases List.mem_append.1 hq with hq1 | hq1
      · obtain ⟨q0, qlt, qnb⟩ := inv.hfree q hq1
        have hqnm : q ∉ cps.map (fun cp => cp.new_phys_reg) := by
          intro hm
          have := (hnews_fact q hm).2.2
          rw [qnb] at this
          exact absurd this (by simp)
        have hnothit := hnothit_of_notmem q.toNat
          (by rw [Int.toNat_of_nonneg q0]; exact hqnm)
        refine ⟨q0, ?_, ?_⟩
        · rw [hprf, hlen]
          exact qlt
        · rw [hprf, foldUndo_prf_getD _ _ _ qlt, if_neg hnothit]
          exact qnb
      · obtain ⟨c0, clt, _⟩ := hnews_fact q (hmem_news q hq1)
        obtain ⟨cp, hcp, hfq⟩ := List.mem_map.1 (hmem_news q hq1)
        have hhit : cps.reverse.any (fun cp => hitsSlot cp q.toNat) = true :=
          (hit_iff cps q.toNat).2 ⟨cp, hcp, by rw [hfq]; exact c0, by rw [hfq]⟩
        refine ⟨c0, ?_, ?_⟩
        · rw [hprf, hlen]
          exact clt
        · rw [hprf, foldUndo_prf_getD _ _ _ clt, if_pos hhit]
          rfl
    · intro q hq hb
      rw [hprf, hlen] at hq
      by_cases hhit : cps.reverse.any (fun cp => hitsSlot cp q) = true
      · obtain ⟨cp, hcp, hc0, hcq⟩ := (hit_iff cps q).1 hhit
        have hqe : (q : Int) = cp.new_phys_reg := by omega
        rw [hfree_list]
        refine List.mem_append_right _ ?_
        rw [hqe]
        exact List.mem_map_of_mem _ (List.mem_reverse.2 hcp)
      · rw [hprf, foldUndo_prf_getD _ _ _ hq, if_neg hhit] at hb
        rw [hfree_list]
        exact List.mem_append_left _ (inv.hnb q hq hb)
    · rw [hfree_list, hprf, List.length_append, List.length_map, List.length_reverse]
      rw [List.length_reverse] at hcount2
      have h5 := inv.hcount
      have h6 := hlen
      omega
    · intro a ha
      rw [hback2]
      rcases inv.hback a ha with hl | ⟨b0, br, bb, barch⟩
      · exact Or.inl hl
      · right
        have hbnm : s.backend_RAT.getD a (-1) ∉
            cps.map (fun c => c.new_phys_reg) := by
          intro hm
          obtain ⟨cp, hcp, hfq⟩ := List.mem_map.1 hm
          exact (hcf cp hcp).2.2.2 a ha hfq.symm
        have hnothit := hnothit_of_notmem (s.backend_RAT.getD a (-1)).toNat
          (by rw [Int.toNat_of_nonneg b0]; exact hbnm)
        refine ⟨b0, ?_, ?_, ?_⟩
        · rw [hprf, hlen]
          exact br
        · rw [hprf, foldUndo_prf_getD _ _ _ br, if_neg hnothit]
          exact bb
        · rw [hprf, foldUndo_prf_getD _ _ _ br, if_neg hnothit]
          exact barch

theorem inv_step {s s' : RegisterAllocator} (inv : AllocInv s) (h : LegalStep s s') :
    AllocInv s' := by
  cases h with
  | dest reg i _ hr _ => exact inv_dest inv reg i
  | src reg _ hr _ => exact inv_src inv reg hr
  | complete p => exact inv_complete inv p
  | retire p h0 hlt hb hnr => exact inv_retire inv h0 hlt hb hnr
  | free p h0 hlt hnf hnn hnbk => exact inv_free inv h0 hlt hnf hnbk
  | undo i hpre => exact inv_undo inv i hpre
  | clear i => exact inv_clear inv i
  | reset => exact inv_reset inv

theorem int_toNat_ofNat (k : Nat) : (Int.ofNat k).toNat = k := rfl

theorem inv_init (n : Nat) : AllocInv (RegisterAllocator.init n) := by
  refine ⟨?_, ?_, ?_, ?_, ?_, ?_⟩ <;>
    dsimp only [RegisterAllocator.init]
  · simp
  · exact (List.nodup_range n).map (fun a b hab => Int.ofNat.inj hab)
  · intro p hp
    obtain ⟨k, hk, rfl⟩ := List.mem_map.1 hp
    rw [List.mem_range] at hk
    refine ⟨Int.ofNat_nonneg k, ?_, ?_⟩
    · rw [List.length_replicate, int_toNat_ofNat]
      exact hk
    · rw [int_toNat_ofNat, getD_replicate_lt _ _ _ _ hk]
  · intro q hq hb
    rw [List.length_replicate] at hq
    exact List.mem_map.2 ⟨q, List.mem_range.2 hq, rfl⟩
  · rw [List.length_map, List.length_range, List.length_replicate,
      countP_replicate]
    simp [freeSlot]
  · intro a ha
    left
    rw [getD_replicate_lt _ _ _ _ ha]

theorem inv_reachable {s t : RegisterAllocator} (hinv : AllocInv s)
    (h : Relation.ReflTransGen LegalStep s t) : AllocInv t := by
  induction h with
  | refl => exact hinv
  | tail _ hstep ih => exact inv_step ih hstep

theorem renameDestRecorded_prf_length (s : RegisterAllocator) (reg : Int) (i : Nat) :
    (renameDestRecorded s reg i).physical_register_file.length =
      s.physical_register_file.length := by
  cases hf : s.free_registers with
  | nil => rw [renameDestRecorded_nil reg i hf]
  | cons p rest =>
    rw [renameDestRecorded_cons reg i hf]
    dsimp only
    exact List.length_set _ _ _

theorem renameSrcStep_prf_length (s : RegisterAllocator) (reg : Int) :
    (renameSrcStep s reg).physical_register_file.length =
      s.physical_register_file.length := by
  by_cases hmap : s.frontend_RAT.getD reg.toNat (-1) < 0
  · cases hf : s.free_registers with
    | nil => rw [renameSrcStep_nilfree reg hmap hf]
    | cons p rest =>
      rw [renameSrcStep_fresh reg hmap hf]
      dsimp only
      exact List.length_set _ _ _
  · rw [renameSrcStep_mapped reg hmap]

theorem retire_prf_length (s : RegisterAllocator) (p : Int) :
    (retire_dest_register s p).physical_register_file.length =
      s.physical_register_file.length := by
  simp only [retire_dest_register]
  by_cases hold : s.backend_RAT.getD
      (s.physical_register_file.getD p.toNat freeSlot).arch_reg_index (-1) ≠ -1
  · rw [if_pos hold, free_prf_length]
  · rw [if_neg hold]

theorem undo_prf_length (s : RegisterAllocator) (i : Nat) :
    (undo_rename s i).physical_register_file.length =
      s.physical_register_file.length := by
  cases hfind : historyFind s.rename_history i with
  | none => rw [undo_rename_of_none hfind]
  | some cps =>
    rw [undo_prf_eq hfind]
    exact foldUndo_prf_length _ _

theorem step_prf_length {s s' : RegisterAllocator} (h : LegalStep s s') :
    s'.physical_register_file.length = s.physical_register_file.length := by
  cases h with
  | dest reg i _ _ _ => exact renameDestRecorded_prf_length s reg i
  | src reg _ _ _ => exact renameSrcStep_prf_length s reg
  | complete p => exact complete_prf_length s p
  | retire p _ _ _ _ => exact retire_prf_length s p
  | free p _ _ _ _ _ => exact free_prf_length s p
  | undo i _ => exact undo_prf_length s i
  | clear i => rfl
  | reset => rfl

theorem reach_prf_length {s t : RegisterAllocator}
    (h : Relation.ReflTransGen LegalStep s t) :
    t.physical_register_file.length = s.physical_register_file.length := by
  induction h with
  | refl => rfl
  | tail _ hstep ih => rw [step_prf_length hstep, ih]

/-! ### Claim theorems -/

/-- C7: `undo_rename` leaves the backend RAT identical to its value before
the call — no entry of the backend RAT is read or written by it; squashed
instructions have not retired. -/
theorem C7_undo_backend_frame (s : RegisterAllocator) (i : Nat) :
    (undo_rename s i).backend_RAT = s.backend_RAT :=
  undo_backend_eq s i

/-- C8: the default packed trace record `input_instr` is laid out with no
padding, fields in declaration order `ip` (8 bytes), `is_branch` (1),
`branch_taken` (1), 2 destination registers (1 byte each), 4 source registers
(1 byte each), 2 destination memory slots (8 bytes each), 4 source memory
slots (8 bytes each), at consecutive offsets 0, 8, 9, 10, 12, 16, 32, for a
total record size of 64 bytes; the SPARC/cloudsuite variant widens the
destinations to 4 entries and appends a 2-byte `asid`, for a total of 84
bytes.  The `#pragma pack(push, 1)` in the source is what makes each field
offset the sum of the sizes before it, which is how `packedOffsets` is
defined. -/
theorem C8_trace_record_layout :
    packedSize input_instr_layout = 64 ∧
    packedSize cloudsuite_instr_layout = 84 ∧
    packedOffsets input_instr_layout =
      [("ip", 0), ("is_branch", 8), ("branch_taken", 9),
       ("destination_registers", 10), ("source_registers", 12),
       ("destination_memory", 16), ("source_memory", 32)] ∧
    packedOffsets cloudsuite_instr_layout =
      [("ip", 0), ("is_branch", 8), ("branch_taken", 9),
       ("destination_registers", 10), ("source_registers", 14),
       ("destination_memory", 18), ("source_memory", 50), ("asid", 82)] := by
  refine ⟨rfl, rfl, rfl, rfl⟩

/-- C6: when the free list is empty, `rename_dest_register` fails with the
`NoFreeRegister` error (the source asserts; the spec names the failure), and
the caller-level rename step leaves the allocator state unchanged. -/
theorem C6_no_free_register (s : RegisterAllocator) (reg : Int) (i : Nat)
    (h : s.free_registers = []) :
    rename_dest_register s reg i = .error .NoFreeRegister ∧
    renameDestRecorded s reg i = s := by
  constructor
  · simp only [rename_dest_register, h]
  · exact renameDestRecorded_nil reg i h

/-- C6 witness: from a fresh 8-register allocator, 8 successive destination
renames empty the free list and the 9th rename fails with `NoFreeRegister`. -/
theorem C6_witness :
    (renameDestRecorded (renameDestRecorded (renameDestRecorded
      (renameDestRecorded (renameDestRecorded (renameDestRecorded
      (renameDestRecorded (renameDestRecorded (RegisterAllocator.init 8)
      0 100) 1 101) 2 102) 3 103) 4 104) 5 105) 6 106) 7 107).free_registers
      = [] ∧
    rename_dest_register (renameDestRecorded (renameDestRecorded
      (renameDestRecorded (renameDestRecorded (renameDestRecorded
      (renameDestRecorded (renameDestRecorded (renameDestRecorded
      (RegisterAllocator.init 8) 0 100) 1 101) 2 102) 3 103) 4 104) 5 105)
      6 106) 7 107) 0 108 = .error .NoFreeRegister := by
  refine ⟨by decide, ?_⟩
  exact (C6_no_free_register _ 0 108 (by decide)).1

/-- C3: after any sequence of legal operations (destination/source renames
with their matching `record_rename`, `complete`, `retire`, `free_register`,
`undo_rename`, `retire_rename`, `reset_frontend_RAT`, each respecting its
documented preconditions as captured by `LegalStep`) starting from a
freshly-constructed allocator with `n` physical registers, the size of the
free list plus the number of PRF slots with `busy = true` equals `n`. -/
theorem C3_free_plus_busy (n : Nat) (s : RegisterAllocator)
    (h : Relation.ReflTransGen LegalStep (RegisterAllocator.init n) s) :
    count_free_registers s +
      s.physical_register_file.countP (fun r => r.busy) = n := by
  have hinv := inv_reachable (inv_init n) h
  have hlen := reach_prf_length h
  have hlen2 : (RegisterAllocator.init n).physical_register_file.length = n := by
    show (List.replicate n _).length = n
    exact List.length_replicate _ _
  have hc := hinv.hcount
  show s.free_registers.length + _ = n
  omega

/-- C3 witness: the canonical lifecycle of one instruction on an 8-register
allocator — destination rename (with its `record_rename`), `complete`,
`retire`, then `retire_rename` clearing the history — keeps free-list size
plus busy-slot count equal to 8 at the end. -/
theorem C3_witness :
    count_free_registers (retire_rename (retire_dest_register
        (complete_dest_register (renameDestRecorded
          (RegisterAllocator.init 8) 3 100) 0) 0) 100) +
      (retire_rename (retire_dest_register (complete_dest_register
        (renameDestRecorded (RegisterAllocator.init 8) 3 100) 0) 0)
        100).physical_register_file.countP (fun r => r.busy) = 8 := by
  have h1 : Relation.ReflTransGen LegalStep (RegisterAllocator.init 8)
      (renameDestRecorded (RegisterAllocator.init 8) 3 100) :=
    Relation.ReflTransGen.single
      (LegalStep.dest _ 3 100 (by decide) (by decide) (by decide))
  have h2 := Relation.ReflTransGen.tail h1 (LegalStep.complete _ 0)
  have h3 := Relation.ReflTransGen.tail h2
    (LegalStep.retire _ 0 (by decide) (by decide) (by decide) (by decide))
  have h4 := Relation.ReflTransGen.tail h3 (LegalStep.clear _ 100)
  exact C3_free_plus_busy 8 _ h4

/-- C1: for an instruction with recorded rename history, `undo_rename`
processes the checkpoints in LIFO order: it deletes the history entry, pushes
each checkpoint's `new_phys_reg` onto the free list (last checkpoint first),
never touches the backend RAT, resets each in-range `new_phys_reg` slot to
the `{0xFF, 0, false, false}` sentinel while leaving untouched slots alone,
and leaves `frontend_RAT[a]` holding the `old_phys_reg` of the EARLIEST
checkpoint for `a` (the first match in recorded order — so when the same arch
reg was renamed twice under one id, the earliest `old_phys` wins); when the
instruction has no history entry, `undo_rename` is a no-op. -/
theorem C1_undo_rename_lifo (s : RegisterAllocator) (i : Nat) :
    (historyFind s.rename_history i = none → undo_rename s i = s) ∧
    (∀ cps, historyFind s.rename_history i = some cps →
      (undo_rename s i).rename_history = historyErase s.rename_history i ∧
      (undo_rename s i).free_registers =
        s.free_registers ++ cps.reverse.map (fun cp => cp.new_phys_reg) ∧
      (undo_rename s i).backend_RAT = s.backend_RAT ∧
      (undo_rename s i).physical_register_file.length =
        s.physical_register_file.length ∧
      (∀ cp ∈ cps, 0 ≤ cp.new_phys_reg →
        cp.new_phys_reg.toNat < s.physical_register_file.length →
        (undo_rename s i).physical_register_file.getD cp.new_phys_reg.toNat freeSlot
          = freeSlot) ∧
      (∀ q, q < s.physical_register_file.length →
        (∀ cp ∈ cps, ¬(0 ≤ cp.new_phys_reg ∧ cp.new_phys_reg.toNat = q)) →
        (undo_rename s i).physical_register_file.getD q freeSlot =
          s.physical_register_file.getD q freeSlot) ∧
      (∀ j, j < s.frontend_RAT.length →
        (undo_rename s i).frontend_RAT.getD j (-1) =
          ((cps.find? (fun cp => cp.arch_reg.toNat == j)).map
            (fun cp => cp.old_phys_reg)).getD (s.frontend_RAT.getD j (-1)))) := by
  constructor
  · exact undo_rename_of_none
  · intro cps hfind
    refine ⟨undo_history_eq hfind, undo_free_eq hfind, undo_backend_eq s i,
      ?_, ?_, ?_, ?_⟩
    · rw [undo_prf_eq hfind]
      exact foldUndo_prf_length _ _
    · intro cp hcp hc0 hclt
      have hhit : cps.reverse.any (fun c => hitsSlot c cp.new_phys_reg.toNat) = true :=
        (hit_iff cps cp.new_phys_reg.toNat).2 ⟨cp, hcp, hc0, rfl⟩
      rw [undo_prf_eq hfind, foldUndo_prf_getD _ _ _ hclt, if_pos hhit]
    · intro q hq hmiss
      have hnothit : ¬(cps.reverse.any (fun c => hitsSlot c q) = true) := by
        intro hh
        obtain ⟨cp, hcp, hc0, hcq⟩ := (hit_iff cps q).1 hh
        exact hmiss cp hcp ⟨hc0, hcq⟩
      rw [undo_prf_eq hfind, foldUndo_prf_getD _ _ _ hq, if_neg hnothit]
    · intro j hj
      rw [undo_frontend_eq hfind, foldUndo_frontend _ _ _ hj, List.reverse_reverse]

/-- C1 witness: instruction 200 renamed arch reg 7 twice (checkpoints
`(7, -1, 0)` then `(7, 0, 1)`); `undo_rename 200` leaves
`frontend_RAT[7] = -1` (the earliest `old_phys` wins), frees 1 then 0, and
deletes the entry; `undo_rename` of an id with no entry is a no-op. -/
theorem C1_witness :
    historyFind stateTwoRenames.rename_history 200 =
      some [⟨7, -1, 0, 200⟩, ⟨7, 0, 1, 200⟩] ∧
    (undo_rename stateTwoRenames 200).frontend_RAT.getD 7 (-1) = -1 ∧
    (undo_rename stateTwoRenames 200).free_registers = [1, 0] ∧
    (undo_rename stateTwoRenames 200).rename_history = [] ∧
    undo_rename stateTwoRenames 999 = stateTwoRenames := by
  have h := (C1_undo_rename_lifo stateTwoRenames 200).2
    [⟨7, -1, 0, 200⟩, ⟨7, 0, 1, 200⟩] rfl
  refine ⟨rfl, ?_, ?_, ?_, (C1_undo_rename_lifo stateTwoRenames 999).1 rfl⟩
  · exact (h.2.2.2.2.2.2 7 (by decide)).trans (by decide)
  · exact h.2.1.trans (by decide)
  · exact h.1.trans (by decide)

/-- C10: for a recorded history entry, `undo_rename` grows the free list by
one per checkpoint regardless of whether `new_phys_reg` is a valid PRF index
— every recorded `new_phys_reg`, in-range or not, ends up in the free list —
and when every checkpoint's `new_phys_reg` is outside `[0, NUM_PHYSICAL)`
only the slot resets are skipped: the register file is left untouched. -/
theorem C10_out_of_range (s : RegisterAllocator) (i : Nat)
    (cps : List RenameCheckpoint) (h : historyFind s.rename_history i = some cps) :
    count_free_registers (undo_rename s i) = count_free_registers s + cps.length ∧
    (∀ cp ∈ cps, cp.new_phys_reg ∈ (undo_rename s i).free_registers) ∧
    ((∀ cp ∈ cps, cp.new_phys_reg < 0 ∨
        s.physical_register_file.length ≤ cp.new_phys_reg.toNat) →
      (undo_rename s i).physical_register_file = s.physical_register_file) := by
  refine ⟨?_, ?_, ?_⟩
  · show (undo_rename s i).free_registers.length = s.free_registers.length + cps.length
    rw [undo_free_eq h, List.length_append, List.length_map, List.length_reverse]
  · intro cp hcp
    rw [undo_free_eq h]
    exact List.mem_append_right _ (List.mem_map_of_mem _ (List.mem_reverse.2 hcp))
  · intro hmiss
    rw [undo_prf_eq h]
    refine foldUndo_prf_of_miss _ _ ?_
    intro cp hcp
    exact hmiss cp (List.mem_reverse.1 hcp)

/-- C10 witness: undoing instruction 300, whose only checkpoint recorded the
out-of-range id 99 against a one-slot register file, still pushes 99 onto the
free list (count 0 becomes 1) while the register file stays untouched. -/
theorem C10_witness :
    count_free_registers (undo_rename stateOutOfRange 300) = 1 ∧
    (99 : Int) ∈ (undo_rename stateOutOfRange 300).free_registers ∧
    (undo_rename stateOutOfRange 300).physical_register_file =
      stateOutOfRange.physical_register_file := by
  have h := C10_out_of_range stateOutOfRange 300 [⟨4, -1, 99, 300⟩] rfl
  exact ⟨h.1.trans (by decide), h.2.1 ⟨4, -1, 99, 300⟩ (by decide),
    h.2.2 (by decide)⟩

/-- C9: constructing the allocator with `n` physical registers (`n` within
the physical-register id range, spec-modelled as the signed 16-bit bound)
gives `count_free_registers = n`, a free list holding exactly `0 .. n-1` in
ascending FIFO order — so the first `rename_dest_register` returns 0 — both
RATs entirely `-1` (unmapped), and every PRF slot equal to
`{arch_reg_index = 0, producer = 0, valid = false, busy = false}`, which uses
0 and not the `0xFF` free-slot sentinel written by `free_register` and
`undo_rename`. -/
theorem C9_constructor_state (n : Nat) (hn : n ≤ PHYS_REG_ID_MAX) :
    count_free_registers (RegisterAllocator.init n) = n ∧
    (RegisterAllocator.init n).free_registers = (List.range n).map Int.ofNat ∧
    (∀ j, j < 256 → (RegisterAllocator.init n).frontend_RAT.getD j 0 = -1 ∧
      (RegisterAllocator.init n).backend_RAT.getD j 0 = -1) ∧
    (∀ q, q < n → (RegisterAllocator.init n).physical_register_file.getD q freeSlot =
      ⟨0, 0, false, false⟩) ∧
    (⟨0, 0, false, false⟩ : physical_register) ≠ freeSlot ∧
    (0 < n → ∀ reg i, ∃ s1, rename_dest_register (RegisterAllocator.init n) reg i =
      .ok (s1, 0)) := by
  refine ⟨?_, rfl, ?_, ?_, by decide, ?_⟩
  · show ((List.range n).map Int.ofNat).length = n
    rw [List.length_map, List.length_range]
  · intro j hj
    constructor <;> exact getD_replicate_lt _ _ _ _ hj
  · intro q hq
    exact getD_replicate_lt _ _ _ _ hq
  · intro hn0 reg i
    obtain ⟨m, rfl⟩ : ∃ m, n = m + 1 := ⟨n - 1, by omega⟩
    have hfree : (RegisterAllocator.init (m + 1)).free_registers =
        (0 : Int) :: (List.range m).map (fun k => Int.ofNat (k + 1)) := by
      show (List.range (m + 1)).map Int.ofNat = _
      rw [List.range_succ_eq_map]
      simp [List.map_map, Function.comp]
    refine ⟨{ RegisterAllocator.init (m + 1) with
        free_registers := (List.range m).map (fun k => Int.ofNat (k + 1))
        frontend_RAT := ((RegisterAllocator.init (m + 1)).frontend_RAT.set reg.toNat 0)
        physical_register_file := ((RegisterAllocator.init (m + 1)).physical_register_file.set
          (0 : Int).toNat ⟨reg.toNat, i, false, true⟩) }, ?_⟩
    simp only [rename_dest_register, hfree]

/-- C9 witness: the 8-register allocator starts with 8 free registers and its
first destination rename returns phys reg 0. -/
theorem C9_witness :
    count_free_registers (RegisterAllocator.init 8) = 8 ∧
    (∃ s1, rename_dest_register (RegisterAllocator.init 8) 3 100 = .ok (s1, 0)) := by
  have h := C9_constructor_state 8 (by decide)
  exact ⟨h.1, h.2.2.2.2.2 (by decide) 3 100⟩

/-- C4: for an in-range `p` with a busy slot, `retire_dest_register p` reads
`a = slot[p].arch_reg_index` and `old = backend_RAT[a]` (before updating),
sets `backend_RAT[a] = p`, and frees `old` — resetting `slot[old]` to the
free sentinel and pushing `old` onto the free list — iff `old ≠ -1`;
afterwards `backend_RAT[a] = p` and the previous mapping, if any, is in the
free list. -/
theorem C4_retire (s : RegisterAllocator) (p : Int)
    (h0 : 0 ≤ p) (hlt : p.toNat < s.physical_register_file.length)
    (hbusy : (s.physical_register_file.getD p.toNat freeSlot).busy = true)
    (hbl : s.backend_RAT.length = 256)
    (harch : (s.physical_register_file.getD p.toNat freeSlot).arch_reg_index < 256) :
    retire_dest_register s p =
      (if s.backend_RAT.getD
          (s.physical_register_file.getD p.toNat freeSlot).arch_reg_index (-1) = -1
       then { s with backend_RAT := (s.backend_RAT.set
          (s.physical_register_file.getD p.toNat freeSlot).arch_reg_index p) }
       else free_register
         { s with backend_RAT := (s.backend_RAT.set
            (s.physical_register_file.getD p.toNat freeSlot).arch_reg_index p) }
         (s.backend_RAT.getD
            (s.physical_register_file.getD p.toNat freeSlot).arch_reg_index (-1))) ∧
    (retire_dest_register s p).backend_RAT.getD
      (s.physical_register_file.getD p.toNat freeSlot).arch_reg_index (-1) = p ∧
    (s.backend_RAT.getD
        (s.physical_register_file.getD p.toNat freeSlot).arch_reg_index (-1) ≠ -1 →
      s.backend_RAT.getD
        (s.physical_register_file.getD p.toNat freeSlot).arch_reg_index (-1) ∈
        (retire_dest_register s p).free_registers) ∧
    (∀ old, s.backend_RAT.getD
        (s.physical_register_file.getD p.toNat freeSlot).arch_reg_index (-1) = old →
      old ≠ -1 → old.toNat < s.physical_register_file.length →
      (retire_dest_register s p).physical_register_file.getD old.toNat freeSlot =
        freeSlot) := by
  have hr : retire_dest_register s p =
      if s.backend_RAT.getD
          (s.physical_register_file.getD p.toNat freeSlot).arch_reg_index (-1) ≠ -1
      then free_register
        { s with backend_RAT := (s.backend_RAT.set
            (s.physical_register_file.getD p.toNat freeSlot).arch_reg_index p) }
        (s.backend_RAT.getD
            (s.physical_register_file.getD p.toNat freeSlot).arch_reg_index (-1))
      else { s with backend_RAT := (s.backend_RAT.set
          (s.physical_register_file.getD p.toNat freeSlot).arch_reg_index p) } := rfl
  refine ⟨?_, ?_, ?_, ?_⟩
  · rw [hr]
    by_cases hold : s.backend_RAT.getD
        (s.physical_register_file.getD p.toNat freeSlot).arch_reg_index (-1) = -1
    · rw [if_neg (fun hc => hc hold), if_pos hold]
    · rw [if_pos hold, if_neg hold]
  · rw [hr]
    by_cases hold : s.backend_RAT.getD
        (s.physical_register_file.getD p.toNat freeSlot).arch_reg_index (-1) = -1
    · rw [if_neg (fun hc => hc hold)]
      exact getD_set_self _ _ _ _ (by rw [hbl]; exact harch)
    · rw [if_pos hold]
      show ((s.backend_RAT.set _ p).getD _ (-1)) = p
      exact getD_set_self _ _ _ _ (by rw [hbl]; exact harch)
  · intro hne
    rw [hr, if_pos hne]
    exact List.mem_append_right _ (List.mem_singleton.2 rfl)
  · intro old hoe hne holt
    rw [hr, if_pos (by rw [hoe]; exact hne), hoe]
    exact free_prf_getD_self _ _ holt

/-- C4 witness: in `stateRetire`, retiring phys reg 1 (arch 5, previous
mapping 0) yields `backend_RAT[5] = 1`, puts 0 in the free list, and resets
slot 0 to the free sentinel. -/
theorem C4_witness :
    (retire_dest_register stateRetire 1).backend_RAT.getD 5 (-1) = 1 ∧
    (0 : Int) ∈ (retire_dest_register stateRetire 1).free_registers ∧
    (retire_dest_register stateRetire 1).physical_register_file.getD 0 freeSlot =
      freeSlot := by
  have h := C4_retire stateRetire 1 (by decide) (by decide) (by decide)
    (by decide) (by decide)
  have ha : (stateRetire.physical_register_file.getD (1 : Int).toNat
      freeSlot).arch_reg_index = 5 := by decide
  have ho : stateRetire.backend_RAT.getD
      (stateRetire.physical_register_file.getD (1 : Int).toNat
        freeSlot).arch_reg_index (-1) = 0 := by decide
  refine ⟨?_, ?_, ?_⟩
  · have h2 := h.2.1
    rw [ha] at h2
    exact h2
  · have h3 := h.2.2.1 (by rw [ho]; decide)
    rw [ho] at h3
    exact h3
  · exact h.2.2.2 0 ho (by decide) (by decide)

/-- C5: for an in-range arch reg, if `frontend_RAT[arch]` is already mapped
(non-negative), `rename_src_register` returns that physical register and
leaves the entire state unchanged — so a repeated call returns the same
register without consuming the free list; if `frontend_RAT[arch] = -1` it
pops the fresh head `p` of the free list, sets
`slot[p] = {arch, producer = 0, valid = true, busy = true}`, writes `p` into
both the frontend and the backend RAT at `arch`, records no rename-history
entry, leaves every other RAT entry and PRF slot unchanged, and returns
`p`. -/
theorem C5_rename_src (s : RegisterAllocator) (reg : Int)
    (hr0 : 0 ≤ reg) (hr : reg.toNat < 256) (hfl : s.frontend_RAT.length = 256) :
    (∀ q, s.frontend_RAT.getD reg.toNat (-1) = q → 0 ≤ q →
      rename_src_register s reg = .ok (s, q)) ∧
    (s.frontend_RAT.getD reg.toNat (-1) = -1 →
      ∀ p rest, s.free_registers = p :: rest → 0 ≤ p →
        p.toNat < s.physical_register_file.length →
        s.backend_RAT.length = 256 →
        ∃ s1, rename_src_register s reg = .ok (s1, p) ∧
          s1.frontend_RAT.getD reg.toNat (-1) = p ∧
          s1.backend_RAT.getD reg.toNat (-1) = p ∧
          s1.physical_register_file.getD p.toNat freeSlot =
            ⟨reg.toNat, 0, true, true⟩ ∧
          s1.free_registers = rest ∧
          s1.rename_history = s.rename_history ∧
          (∀ j, j < 256 → j ≠ reg.toNat →
            s1.frontend_RAT.getD j (-1) = s.frontend_RAT.getD j (-1) ∧
            s1.backend_RAT.getD j (-1) = s.backend_RAT.getD j (-1)) ∧
          (∀ q, q < s.physical_register_file.length → q ≠ p.toNat →
            s1.physical_register_file.getD q freeSlot =
              s.physical_register_file.getD q freeSlot)) := by
  constructor
  · intro q hq hq0
    simp only [rename_src_register]
    rw [hq, if_neg (by omega)]
  · intro hm p rest hf hp0 hplt hbl
    refine ⟨{ s with
        free_registers := rest
        frontend_RAT := (s.frontend_RAT.set reg.toNat p)
        backend_RAT := (s.backend_RAT.set reg.toNat p)
        physical_register_file := (s.physical_register_file.set p.toNat
          ⟨reg.toNat, 0, true, true⟩) }, ?_, ?_, ?_, ?_, rfl, rfl, ?_, ?_⟩
    · simp only [rename_src_register]
      rw [hm, if_pos (by omega), hf]
    · exact getD_set_self _ _ _ _ (by rw [hfl]; exact hr)
    · exact getD_set_self _ _ _ _ (by rw [hbl]; exact hr)
    · exact getD_set_self _ _ _ _ hplt
    · intro j hj hjr
      constructor <;> exact getD_set_ne _ _ _ _ _ (fun he => hjr he.symm)
    · intro q hq hqp
      exact getD_set_ne _ _ _ _ _ (fun he => hqp he.symm)

/-- C5 witness: on a fresh 2-register allocator, `rename_src 3` allocates
phys reg 0, writes it into both RATs, and leaves 1 free; in
`stateTwoRenames`, where `frontend_RAT[7] = 1`, `rename_src 7` returns 1 and
leaves the state unchanged. -/
theorem C5_witness :
    (∃ s1, rename_src_register (RegisterAllocator.init 2) 3 = .ok (s1, 0) ∧
      s1.frontend_RAT.getD 3 (-1) = 0 ∧ s1.backend_RAT.getD 3 (-1) = 0 ∧
      s1.free_registers = [1]) ∧
    rename_src_register stateTwoRenames 7 = .ok (stateTwoRenames, 1) := by
  constructor
  · obtain ⟨s1, heq, hf1, hb1, _, hfree, _, _, _⟩ :=
      (C5_rename_src (RegisterAllocator.init 2) 3 (by decide) (by decide)
        (by decide)).2 (by decide) 0 [1] (by decide) (by decide) (by decide)
        (by decide)
    exact ⟨s1, heq, hf1, hb1, hfree⟩
  · exact (C5_rename_src stateTwoRenames 7 (by decide) (by decide)
      (by decide)).1 1 (by decide) (by decide)

/-- C2 counterexample: on the freshly-constructed one-register allocator
(non-empty free list), `rename_dest(0, 7)` with its matching `record_rename`
followed by `undo_rename(7)` does NOT restore the PRF slot contents: the
constructor initialises the slot's `arch_reg_index` to 0, while `undo_rename`
resets it to the `0xFF` sentinel. -/
theorem C2_counterexample :
    (RegisterAllocator.init 1).free_registers ≠ [] ∧
    (undo_rename (renameDestRecorded (RegisterAllocator.init 1) 0 7)
        7).physical_register_file ≠
      (RegisterAllocator.init 1).physical_register_file := by
  constructor
  · decide
  · decide

/-- C2 (amended): `rename_dest(reg, i)` with its matching `record_rename`
followed by `undo_rename(i)` returns the system to its prior state —
frontend RAT, backend RAT, PRF slots and rename history all equal their
values before the pair of calls, and the free list is the original with its
head moved to the back — provided the slot of the register at the head of
the free list already holds the `{0xFF, 0, false, false}` free-slot sentinel
(as it does after any `free_register` or `undo_rename`, but not straight out
of the constructor) and instruction `i` has no earlier rename-history
entry. -/
theorem C2_roundtrip_amended (s : RegisterAllocator) (reg : Int) (i : Nat)
    (p : Int) (rest : List Int)
    (hf : s.free_registers = p :: rest)
    (hreg : reg.toNat < s.frontend_RAT.length)
    (hp0 : 0 ≤ p) (hplt : p.toNat < s.physical_register_file.length)
    (hsent : s.physical_register_file.getD p.toNat freeSlot = freeSlot)
    (hhist : historyFind s.rename_history i = none) :
    undo_rename (renameDestRecorded s reg i) i =
      { s with free_registers := rest ++ [p] } := by
  rw [renameDestRecorded_cons reg i hf]
  have hfind : historyFind (historyAppend s.rename_history i
      ⟨reg, s.frontend_RAT.getD reg.toNat (-1), p, i⟩) i =
      some [⟨reg, s.frontend_RAT.getD reg.toNat (-1), p, i⟩] :=
    historyFind_append_self _ hhist
  simp only [undo_rename, hfind, List.reverse_cons, List.reverse_nil,
    List.nil_append, List.foldl_cons, List.foldl_nil, undoCheckpoint]
  rw [historyErase_append_of_none _ hhist]
  rw [if_pos (by constructor; exact hp0; rw [List.length_set]; exact hplt)]
  rw [List.set_set, List.set_set]
  rw [set_getD_self s.frontend_RAT reg.toNat (-1) hreg]
  have hPs : s.physical_register_file.set p.toNat freeSlot =
      s.physical_register_file := by
    conv_lhs => rw [← hsent]
    exact set_getD_self _ _ _ hplt
  rw [hPs]

/-- C2 (amended) witness: on `stateSentinelFree` (one register, free, slot
already holding the sentinel), the rename/undo round trip restores the state
with the free list rotated. -/
theorem C2_witness :
    stateSentinelFree.free_registers = 0 :: [] ∧
    undo_rename (renameDestRecorded stateSentinelFree 3 9) 9 =
      { stateSentinelFree with free_registers := [] ++ [0] } := by
  exact ⟨rfl, C2_roundtrip_amended stateSentinelFree 3 9 0 [] rfl (by decide)
    (by decide) (by decide) (by decide) rfl⟩
